import Mathlib

/-!
Verification of the bolt-diy Cloudflare persistence layer.

This file gives a shallow embedding of the persistence layer of the
repository — the D1-backed chat store (`app/lib/persistence/cloudflare-db.ts`),
the R2-backed object store (`app/lib/persistence/cloudflare-storage.ts`) and
the `CloudflareFileManager` composing the two — and proves the specified
properties about it.  Machine-level JavaScript values are modelled as follows:
strings are Lean `String`s, nonnegative JS numbers as `Nat`, SQL `NULL`able
columns as `Option`, thrown exceptions as `Except Unit`, and each fallible
backend call takes an explicit `Bool`/`Except` outcome parameter describing
whether the backend succeeded on that call.
-/

namespace BoltDiy

instance exceptDecEq {ε α : Type} [DecidableEq ε] [DecidableEq α] :
    DecidableEq (Except ε α) := fun x y =>
  match x, y with
  | .error a, .error b =>
    if h : a = b then .isTrue (by rw [h]) else .isFalse (by simp [h])
  | .error _, .ok _ => .isFalse (by simp)
  | .ok _, .error _ => .isFalse (by simp)
  | .ok a, .ok b =>
    if h : a = b then .isTrue (by rw [h]) else .isFalse (by simp [h])

/-! ### Decimal numerals

Model of JavaScript number-to-string conversion (`String(n)`, `${i}`) for a
nonnegative integer: the canonical base-10 numeral.  Written with explicit
fuel so that the kernel can evaluate it. -/

/-- The character for a single decimal digit. -/
def digitChar (d : Nat) : Char := Char.ofNat (48 + d)

/-- Big-endian decimal digits of `n`, with explicit fuel (structural recursion). -/
def decDigitsAux : Nat → Nat → List Nat
  | 0, _ => []
  | fuel + 1, n => if n < 10 then [n] else decDigitsAux fuel (n / 10) ++ [n % 10]

/-- Big-endian decimal digits of `n`. -/
def decDigits (n : Nat) : List Nat := decDigitsAux (n + 1) n

/-- The value denoted by a big-endian digit list. -/
def digitsVal (l : List Nat) : Nat := l.foldl (fun a d => 10 * a + d) 0

/-- Model of JavaScript `String(n)` for a nonnegative integer `n`. -/
def natToString (n : Nat) : String := ⟨(decDigits n).map digitChar⟩

theorem digitsVal_append (l₁ l₂ : List Nat) :
    digitsVal (l₁ ++ l₂) = (l₂.foldl (fun a d => 10 * a + d) (digitsVal l₁)) := by
  simp [digitsVal, List.foldl_append]

theorem digitsVal_decDigitsAux (fuel : Nat) :
    ∀ n, n < fuel → digitsVal (decDigitsAux fuel n) = n := by
  induction fuel with
  | zero => intro n h; omega
  | succ fuel ih =>
    intro n h
    by_cases h10 : n < 10
    · simp [decDigitsAux, h10, digitsVal]
    · have hn : 0 < n := by omega
      have hdiv : n / 10 < n := Nat.div_lt_self hn (by omega)
      have hfuel : n / 10 < fuel := by omega
      simp only [decDigitsAux, if_neg h10, digitsVal_append, List.foldl]
      rw [ih (n / 10) hfuel]
      omega

theorem digitsVal_decDigits (n : Nat) : digitsVal (decDigits n) = n :=
  digitsVal_decDigitsAux (n + 1) n (Nat.lt_succ_self n)

theorem decDigitsAux_lt (fuel : Nat) :
    ∀ n, ∀ d ∈ decDigitsAux fuel n, d < 10 := by
  induction fuel with
  | zero => intro n d hd; simp [decDigitsAux] at hd
  | succ fuel ih =>
    intro n d hd
    by_cases h10 : n < 10
    · simp [decDigitsAux, h10] at hd; omega
    · simp only [decDigitsAux, if_neg h10, List.mem_append, List.mem_singleton] at hd
      rcases hd with hd | hd
      · exact ih _ _ hd
      · subst hd; exact Nat.mod_lt _ (by omega)

theorem decDigits_lt (n : Nat) : ∀ d ∈ decDigits n, d < 10 :=
  decDigitsAux_lt (n + 1) n

theorem digitChar_inj : ∀ a, a < 10 → ∀ b, b < 10 → digitChar a = digitChar b → a = b := by
  decide

theorem map_digitChar_inj :
    ∀ l₁ l₂ : List Nat, (∀ d ∈ l₁, d < 10) → (∀ d ∈ l₂, d < 10) →
      l₁.map digitChar = l₂.map digitChar → l₁ = l₂ := by
  intro l₁
  induction l₁ with
  | nil => intro l₂ _ _ h; cases l₂ <;> simp_all
  | cons a t ih =>
    intro l₂ h₁ h₂ h
    cases l₂ with
    | nil => simp at h
    | cons b t₂ =>
      simp only [List.map_cons, List.cons.injEq] at h
      have ha : a < 10 := h₁ a (by simp)
      have hb : b < 10 := h₂ b (by simp)
      have hab : a = b := digitChar_inj a ha b hb h.1
      have ht : t = t₂ := ih t₂ (fun d hd => h₁ d (by simp [hd])) (fun d hd => h₂ d (by simp [hd])) h.2
      rw [hab, ht]

theorem natToString_inj : Function.Injective natToString := by
  intro m n h
  have hdata : (decDigits m).map digitChar = (decDigits n).map digitChar := by
    have := congrArg String.data h
    simpa [natToString] using this
  have hdig : decDigits m = decDigits n :=
    map_digitChar_inj _ _ (decDigits_lt m) (decDigits_lt n) hdata
  have := congrArg digitsVal hdig
  rwa [digitsVal_decDigits, digitsVal_decDigits] at this

/-! ### SQLite `CAST(id AS INTEGER)`

Model of SQLite's cast of a text column to INTEGER, restricted to the
nonnegative case the system exercises (ids produced by `getNextId` are
canonical decimal numerals): the value of the longest digit prefix, `0` when
there is none. -/

/-- Numeric value of a digit character. -/
def digitVal (c : Char) : Nat := c.toNat - 48

/-- SQLite `CAST(s AS INTEGER)` for nonnegative input: value of the longest
digit prefix of `s` (0 if none). -/
def sqliteCastInt (s : String) : Nat :=
  digitsVal ((s.data.takeWhile Char.isDigit).map digitVal)

theorem digitVal_digitChar : ∀ d, d < 10 → digitVal (digitChar d) = d := by decide

theorem isDigit_digitChar : ∀ d, d < 10 → (digitChar d).isDigit = true := by decide

theorem takeWhile_of_all {p : Char → Bool} :
    ∀ l : List Char, (∀ c ∈ l, p c) → l.takeWhile p = l := by
  intro l
  induction l with
  | nil => intro _; rfl
  | cons c t ih =>
    intro h
    have hc : p c = true := h c (by simp)
    simp [List.takeWhile_cons, hc, ih (fun d hd => h d (by simp [hd]))]

theorem map_digitVal_digitChar :
    ∀ l : List Nat, (∀ d ∈ l, d < 10) → l.map (fun d => digitVal (digitChar d)) = l := by
  intro l
  induction l with
  | nil => intro _; rfl
  | cons a t ih =>
    intro h
    simp only [List.map_cons, List.cons.injEq]
    exact ⟨digitVal_digitChar a (h a (by simp)), ih (fun d hd => h d (by simp [hd]))⟩

theorem sqliteCastInt_natToString (n : Nat) : sqliteCastInt (natToString n) = n := by
  unfold sqliteCastInt natToString
  have hall : ∀ c ∈ (decDigits n).map digitChar, c.isDigit = true := by
    intro c hc
    simp only [List.mem_map] at hc
    obtain ⟨d, hd, rfl⟩ := hc
    exact isDigit_digitChar d (decDigits_lt n d hd)
  rw [show (String.mk ((decDigits n).map digitChar)).data = (decDigits n).map digitChar from rfl]
  rw [takeWhile_of_all _ hall, List.map_map]
  rw [show (digitVal ∘ digitChar) = (fun d => digitVal (digitChar d)) from rfl]
  rw [map_digitVal_digitChar _ (decDigits_lt n), digitsVal_decDigits]

/-! ### JSON serialization of string literals

Model of `JSON.stringify`/`JSON.parse` on strings: quotes and backslashes are
escaped, common control characters use their two-character escapes. -/

/-- Escape one character for a JSON string literal. -/
def escChar (c : Char) : List Char :=
  if c = '"' then ['\\', '"']
  else if c = '\\' then ['\\', '\\']
  else if c = '\n' then ['\\', 'n']
  else if c = '\t' then ['\\', 't']
  else if c = '\r' then ['\\', 'r']
  else [c]

/-- Escape a character sequence for a JSON string literal. -/
def encChars : List Char → List Char
  | [] => []
  | c :: t => escChar c ++ encChars t

/-- Decode a two-character escape. -/
def unescChar (c : Char) : Option Char :=
  if c = '"' then some '"'
  else if c = '\\' then some '\\'
  else if c = 'n' then some '\n'
  else if c = 't' then some '\t'
  else if c = 'r' then some '\r'
  else none

/-- Parse the body of a JSON string literal (the opening quote already
consumed); the `Bool` records whether a backslash is pending.  Returns the
decoded characters and the input remaining after the closing quote. -/
def parseStrBodyAux : Bool → List Char → Option (List Char × List Char)
  | _, [] => none
  | true, e :: t =>
    (unescChar e).bind (fun d => (parseStrBodyAux false t).map (fun p => (d :: p.1, p.2)))
  | false, c :: t =>
    if c = '\\' then parseStrBodyAux true t
    else if c = '"' then some ([], t)
    else (parseStrBodyAux false t).map (fun p => (c :: p.1, p.2))

/-- Parse the body of a JSON string literal (the opening quote already
consumed); returns the decoded characters and the input remaining after the
closing quote. -/
def parseStrBody (l : List Char) : Option (List Char × List Char) :=
  parseStrBodyAux false l

theorem parseStrBody_enc (l rest : List Char) :
    parseStrBody (encChars l ++ '"' :: rest) = some (l, rest) := by
  unfold parseStrBody
  induction l with
  | nil => rfl
  | cons c t ih =>
    show parseStrBodyAux false (escChar c ++ encChars t ++ '"' :: rest) = _
    by_cases h1 : c = '"'
    · subst h1; simp [escChar, parseStrBodyAux, unescChar, ih]
    · by_cases h2 : c = '\\'
      · subst h2; simp [escChar, parseStrBodyAux, unescChar, ih]
      · by_cases h3 : c = '\n'
        · subst h3; simp [escChar, parseStrBodyAux, unescChar, ih]
        · by_cases h4 : c = '\t'
          · subst h4; simp [escChar, parseStrBodyAux, unescChar, ih]
          · by_cases h5 : c = '\r'
            · subst h5; simp [escChar, parseStrBodyAux, unescChar, ih]
            · simp [escChar, h1, h2, h3, h4, h5, parseStrBodyAux, ih]

/-- Consume an expected literal character sequence from the front of the
input, returning the remainder. -/
def expectPre : List Char → List Char → Option (List Char)
  | [], l => some l
  | _ :: _, [] => none
  | p :: ps, c :: cs => if c = p then expectPre ps cs else none

theorem expectPre_self (pat r : List Char) : expectPre pat (pat ++ r) = some r := by
  induction pat with
  | nil => rfl
  | cons p ps ih => simp [expectPre, ih]

/-! ### Messages and their JSON column encoding

The chat `messages` column holds `JSON.stringify` of the message array.  A
message (the `Message` type of the `ai` package) is modelled by its `id`,
`role` and `content` fields; the remaining free-form fields are opaque to the
persistence layer. -/

structure Message where
  id : String
  role : String
  content : String
deriving DecidableEq

/-- The literal characters `{"id":"`. -/
def litMsgIdPat : List Char := ['\x7b', '"', 'i', 'd', '"', ':', '"']

/-- The literal characters `,"role":"`. -/
def litMsgRoleSep : List Char := [',', '"', 'r', 'o', 'l', 'e', '"', ':', '"']

/-- The literal characters `,"content":"`. -/
def litMsgContentSep : List Char :=
  [',', '"', 'c', 'o', 'n', 't', 'e', 'n', 't', '"', ':', '"']

/-- `JSON.stringify` of one message object. -/
def encodeMessageChars (m : Message) : List Char :=
  litMsgIdPat ++ encChars m.id.data ++ '"' ::
    (litMsgRoleSep ++ encChars m.role.data ++ '"' ::
      (litMsgContentSep ++ encChars m.content.data ++ '"' :: ['\x7d']))

/-- Parse one message object, returning it and the remaining input. -/
def parseMessageChars (l : List Char) : Option (Message × List Char) :=
  match expectPre litMsgIdPat l with
  | none => none
  | some r1 =>
    match parseStrBody r1 with
    | none => none
    | some (idc, r2) =>
      match expectPre litMsgRoleSep r2 with
      | none => none
      | some r3 =>
        match parseStrBody r3 with
        | none => none
        | some (rolec, r4) =>
          match expectPre litMsgContentSep r4 with
          | none => none
          | some r5 =>
            match parseStrBody r5 with
            | none => none
            | some (contc, r6) =>
              match r6 with
              | '\x7d' :: r7 => some (⟨⟨idc⟩, ⟨rolec⟩, ⟨contc⟩⟩, r7)
              | _ => none

theorem parseMessageChars_enc (m : Message) (rest : List Char) :
    parseMessageChars (encodeMessageChars m ++ rest) = some (m, rest) := by
  obtain ⟨⟨idc⟩, ⟨rolec⟩, ⟨contc⟩⟩ := m
  simp [encodeMessageChars, parseMessageChars, litMsgIdPat, litMsgRoleSep,
    litMsgContentSep, expectPre, parseStrBody_enc]

/-- `JSON.stringify` of a message array (the tail after the first element). -/
def encodeMsgTail : List Message → List Char
  | [] => [']']
  | m :: t => ',' :: (encodeMessageChars m ++ encodeMsgTail t)

/-- `JSON.stringify` of a message array. -/
def encodeMessagesChars : List Message → List Char
  | [] => ['[', ']']
  | m :: t => '[' :: (encodeMessageChars m ++ encodeMsgTail t)

/-- The serialized form of the `messages` column: `JSON.stringify(messages)`. -/
def encodeMessages (ms : List Message) : String := ⟨encodeMessagesChars ms⟩

/-- Parse the tail of a message array (`]` or `,` followed by an object). -/
def parseMsgTail : Nat → List Char → Option (List Message × List Char)
  | 0, _ => none
  | _ + 1, [] => none
  | fuel + 1, c :: r =>
    if c = ']' then some ([], r)
    else if c = ',' then
      match parseMessageChars r with
      | none => none
      | some (m, r2) => (parseMsgTail fuel r2).map (fun p => (m :: p.1, p.2))
    else none

/-- Parse the first element of a nonempty message array and then its tail. -/
def parseMsgListFirst (r : List Char) : Option (List Message × List Char) :=
  match parseMessageChars r with
  | none => none
  | some (m, r2) => (parseMsgTail (r2.length + 1) r2).map (fun p => (m :: p.1, p.2))

/-- Parse a full message array, returning it and the remaining input. -/
def parseMessagesChars : List Char → Option (List Message × List Char)
  | '[' :: c :: r => if c = ']' then some ([], r) else parseMsgListFirst (c :: r)
  | _ => none

/-- Model of `JSON.parse` on the `messages` column: succeeds only if the whole
input is one message array. -/
def parseMessages (s : String) : Option (List Message) :=
  match parseMessagesChars s.data with
  | some (ms, []) => some ms
  | _ => none

theorem encodeMsgTail_length (t : List Message) :
    t.length ≤ (encodeMsgTail t).length := by
  induction t with
  | nil => simp [encodeMsgTail]
  | cons m t ih => simp [encodeMsgTail]; omega

theorem parseMsgTail_enc (t : List Message) :
    ∀ fuel rest, t.length < fuel →
      parseMsgTail fuel (encodeMsgTail t ++ rest) = some (t, rest) := by
  induction t with
  | nil =>
    intro fuel rest h
    cases fuel with
    | zero => omega
    | succ fuel => simp [encodeMsgTail, parseMsgTail]
  | cons m t ih =>
    intro fuel rest h
    cases fuel with
    | zero => omega
    | succ fuel =>
      have ht : t.length < fuel := by simp only [List.length_cons] at h; omega
      simp [encodeMsgTail, parseMsgTail, parseMessageChars_enc, ih fuel rest ht]

theorem parseMsgListFirst_enc (m : Message) (t : List Message) :
    parseMsgListFirst (encodeMessageChars m ++ encodeMsgTail t) = some (m :: t, []) := by
  have hparse : parseMessageChars (encodeMessageChars m ++ encodeMsgTail t) =
      some (m, encodeMsgTail t) := parseMessageChars_enc m (encodeMsgTail t)
  have htail : parseMsgTail ((encodeMsgTail t).length + 1) (encodeMsgTail t) =
      some (t, []) := by
    have := parseMsgTail_enc t ((encodeMsgTail t).length + 1) []
      (Nat.lt_succ_of_le (encodeMsgTail_length t))
    rwa [List.append_nil] at this
  simp [parseMsgListFirst, hparse, htail]

theorem parseMessages_enc (ms : List Message) :
    parseMessages (encodeMessages ms) = some ms := by
  cases ms with
  | nil => rfl
  | cons m t =>
    have hA : encodeMessageChars m ++ encodeMsgTail t =
        '\x7b' :: ((litMsgIdPat.tail ++ encChars m.id.data ++ '"' ::
          (litMsgRoleSep ++ encChars m.role.data ++ '"' ::
            (litMsgContentSep ++ encChars m.content.data ++ '"' :: ['\x7d']))) ++
              encodeMsgTail t) := by
      simp [encodeMessageChars, litMsgIdPat]
    have hhead : (encodeMessages (m :: t)).data =
        '[' :: (encodeMessageChars m ++ encodeMsgTail t) := rfl
    unfold parseMessages
    rw [hhead, hA]
    show (match parseMessagesChars ('[' :: '\x7b' :: _) with
      | some (ms, []) => some ms
      | _ => none) = some (m :: t)
    rw [show parseMessagesChars ('[' :: '\x7b' ::
        ((litMsgIdPat.tail ++ encChars m.id.data ++ '"' ::
          (litMsgRoleSep ++ encChars m.role.data ++ '"' ::
            (litMsgContentSep ++ encChars m.content.data ++ '"' :: ['\x7d']))) ++
              encodeMsgTail t)) =
      parseMsgListFirst ('\x7b' ::
        ((litMsgIdPat.tail ++ encChars m.id.data ++ '"' ::
          (litMsgRoleSep ++ encChars m.role.data ++ '"' ::
            (litMsgContentSep ++ encChars m.content.data ++ '"' :: ['\x7d']))) ++
              encodeMsgTail t)) from by simp [parseMessagesChars]]
    rw [← hA, parseMsgListFirst_enc]

/-! ### Chat metadata (`IChatMetadata`) and its JSON column encoding

`IChatMetadata` from `cloudflare-db.ts`: `gitUrl`, optional `gitBranch`,
optional `netlifySiteId`.  `JSON.stringify` writes the present fields in
declaration order and omits `undefined` ones. -/

structure ChatMetadata where
  gitUrl : String
  gitBranch : Option String
  netlifySiteId : Option String
deriving DecidableEq

/-- The literal characters `{"gitUrl":"`. -/
def litMetaUrlPat : List Char :=
  ['\x7b', '"', 'g', 'i', 't', 'U', 'r', 'l', '"', ':', '"']

/-- The literal characters `,"gitBranch":"`. -/
def litMetaBranchSep : List Char :=
  [',', '"', 'g', 'i', 't', 'B', 'r', 'a', 'n', 'c', 'h', '"', ':', '"']

/-- The literal characters `,"netlifySiteId":"`. -/
def litMetaSiteSep : List Char :=
  [',', '"', 'n', 'e', 't', 'l', 'i', 'f', 'y', 'S', 'i', 't', 'e', 'I', 'd', '"', ':', '"']

/-- Encoding of the optional `netlifySiteId` field followed by `}`. -/
def sitePart : Option String → List Char
  | none => ['\x7d']
  | some s => litMetaSiteSep ++ encChars s.data ++ '"' :: ['\x7d']

/-- Encoding of the optional `gitBranch` field in front of a given tail. -/
def branchPart : Option String → List Char → List Char
  | none, tail => tail
  | some b, tail => litMetaBranchSep ++ encChars b.data ++ '"' :: tail

/-- `JSON.stringify` of an `IChatMetadata` value. -/
def encodeMetadataChars (md : ChatMetadata) : List Char :=
  litMetaUrlPat ++ encChars md.gitUrl.data ++ '"' ::
    branchPart md.gitBranch (sitePart md.netlifySiteId)

/-- The serialized `metadata` column: `JSON.stringify(metadata)`. -/
def encodeMetadata (md : ChatMetadata) : String := ⟨encodeMetadataChars md⟩

/-- Parse the optional `netlifySiteId` field and the closing `}`. -/
def parseMetaSite (l : List Char) : Option (Option String × List Char) :=
  match expectPre ['\x7d'] l with
  | some r => some (none, r)
  | none =>
    match expectPre litMetaSiteSep l with
    | none => none
    | some r =>
      match parseStrBody r with
      | none => none
      | some (sc, r2) =>
        match expectPre ['\x7d'] r2 with
        | none => none
        | some r3 => some (some ⟨sc⟩, r3)

/-- Parse an `IChatMetadata` object, returning it and the remaining input. -/
def parseMetadataChars (l : List Char) : Option (ChatMetadata × List Char) :=
  match expectPre litMetaUrlPat l with
  | none => none
  | some r =>
    match parseStrBody r with
    | none => none
    | some (uc, r2) =>
      match expectPre litMetaBranchSep r2 with
      | some r3 =>
        match parseStrBody r3 with
        | none => none
        | some (bc, r4) =>
          match parseMetaSite r4 with
          | none => none
          | some (site, r5) => some (⟨⟨uc⟩, some ⟨bc⟩, site⟩, r5)
      | none =>
        match parseMetaSite r2 with
        | none => none
        | some (site, r3) => some (⟨⟨uc⟩, none, site⟩, r3)

/-- Model of `JSON.parse` on the chat `metadata` column. -/
def parseMetadata (s : String) : Option ChatMetadata :=
  match parseMetadataChars s.data with
  | some (md, []) => some md
  | _ => none

theorem parseMetaSite_enc (site : Option String) (rest : List Char) :
    parseMetaSite (sitePart site ++ rest) = some (site, rest) := by
  cases site with
  | none => simp [sitePart, parseMetaSite, expectPre]
  | some s =>
    obtain ⟨sc⟩ := s
    simp [sitePart, parseMetaSite, litMetaSiteSep, expectPre, parseStrBody_enc]

theorem expectPre_branchSep_sitePart (site : Option String) (rest : List Char) :
    expectPre litMetaBranchSep (sitePart site ++ rest) = none := by
  cases site with
  | none => simp [sitePart, litMetaBranchSep, expectPre]
  | some s => simp [sitePart, litMetaSiteSep, litMetaBranchSep, expectPre]

theorem parseMetadataChars_enc (md : ChatMetadata) (rest : List Char) :
    parseMetadataChars (encodeMetadataChars md ++ rest) = some (md, rest) := by
  obtain ⟨⟨uc⟩, b, site⟩ := md
  cases b with
  | none =>
    simp [encodeMetadataChars, parseMetadataChars, litMetaUrlPat, branchPart,
      expectPre, parseStrBody_enc, expectPre_branchSep_sitePart, parseMetaSite_enc]
  | some bs =>
    obtain ⟨bc⟩ := bs
    simp [encodeMetadataChars, parseMetadataChars, litMetaUrlPat, branchPart,
      litMetaBranchSep, expectPre, parseStrBody_enc, parseMetaSite_enc]

theorem parseMetadata_enc (md : ChatMetadata) :
    parseMetadata (encodeMetadata md) = some md := by
  have h := parseMetadataChars_enc md []
  rw [List.append_nil] at h
  simp [parseMetadata, encodeMetadata, h]

/-! ### Flat string-to-string records and their JSON encoding

The file-manager `metadata` argument is a `Record<string, string>`, modelled
as an association list in insertion order (the order `JSON.stringify`
serializes a JS object's own keys). -/

/-- `JSON.stringify` of one `"key":"value"` pair. -/
def encodePairChars (k v : String) : List Char :=
  '"' :: (encChars k.data ++ '"' :: ':' :: '"' :: (encChars v.data ++ ['"']))

/-- `JSON.stringify` of a record (the tail after the first pair). -/
def encodeRecTail : List (String × String) → List Char
  | [] => ['\x7d']
  | kv :: t => ',' :: (encodePairChars kv.1 kv.2 ++ encodeRecTail t)

/-- `JSON.stringify` of a flat string record. -/
def encodeRecordChars : List (String × String) → List Char
  | [] => ['\x7b', '\x7d']
  | kv :: t => '\x7b' :: (encodePairChars kv.1 kv.2 ++ encodeRecTail t)

/-- The serialized form of a `Record<string, string>` column. -/
def encodeRecord (l : List (String × String)) : String := ⟨encodeRecordChars l⟩

/-- Parse one `"key":"value"` pair. -/
def parsePairChars (l : List Char) : Option ((String × String) × List Char) :=
  match expectPre ['"'] l with
  | none => none
  | some r =>
    match parseStrBody r with
    | none => none
    | some (kc, r2) =>
      match expectPre [':', '"'] r2 with
      | none => none
      | some r3 =>
        match parseStrBody r3 with
        | none => none
        | some (vc, r4) => some ((⟨kc⟩, ⟨vc⟩), r4)

/-- Parse the tail of a record (`}` or `,` followed by a pair). -/
def parseRecTail : Nat → List Char → Option (List (String × String) × List Char)
  | 0, _ => none
  | _ + 1, [] => none
  | fuel + 1, c :: r =>
    if c = '\x7d' then some ([], r)
    else if c = ',' then
      match parsePairChars r with
      | none => none
      | some (kv, r2) => (parseRecTail fuel r2).map (fun p => (kv :: p.1, p.2))
    else none

/-- Parse the first pair of a nonempty record and then its tail. -/
def parseRecListFirst (r : List Char) : Option (List (String × String) × List Char) :=
  match parsePairChars r with
  | none => none
  | some (kv, r2) => (parseRecTail (r2.length + 1) r2).map (fun p => (kv :: p.1, p.2))

/-- Parse a full record object, returning it and the remaining input. -/
def parseRecordChars : List Char → Option (List (String × String) × List Char)
  | '\x7b' :: c :: r => if c = '\x7d' then some ([], r) else parseRecListFirst (c :: r)
  | _ => none

/-- Model of `JSON.parse` on a `Record<string, string>` column. -/
def parseRecord (s : String) : Option (List (String × String)) :=
  match parseRecordChars s.data with
  | some (l, []) => some l
  | _ => none

theorem parsePairChars_enc (k v : String) (rest : List Char) :
    parsePairChars (encodePairChars k v ++ rest) = some ((k, v), rest) := by
  obtain ⟨kc⟩ := k
  obtain ⟨vc⟩ := v
  simp [encodePairChars, parsePairChars, expectPre, parseStrBody_enc]

theorem encodeRecTail_length (t : List (String × String)) :
    t.length ≤ (encodeRecTail t).length := by
  induction t with
  | nil => simp [encodeRecTail]
  | cons kv t ih => simp [encodeRecTail]; omega

theorem parseRecTail_enc (t : List (String × String)) :
    ∀ fuel rest, t.length < fuel →
      parseRecTail fuel (encodeRecTail t ++ rest) = some (t, rest) := by
  induction t with
  | nil =>
    intro fuel rest h
    cases fuel with
    | zero => omega
    | succ fuel => simp [encodeRecTail, parseRecTail]
  | cons kv t ih =>
    intro fuel rest h
    cases fuel with
    | zero => omega
    | succ fuel =>
      have ht : t.length < fuel := by simp only [List.length_cons] at h; omega
      simp [encodeRecTail, parseRecTail, parsePairChars_enc, ih fuel rest ht]

theorem parseRecListFirst_enc (kv : String × String) (t : List (String × String)) :
    parseRecListFirst (encodePairChars kv.1 kv.2 ++ encodeRecTail t) = some (kv :: t, []) := by
  have hparse : parsePairChars (encodePairChars kv.1 kv.2 ++ encodeRecTail t) =
      some (kv, encodeRecTail t) := parsePairChars_enc kv.1 kv.2 (encodeRecTail t)
  have htail : parseRecTail ((encodeRecTail t).length + 1) (encodeRecTail t) =
      some (t, []) := by
    have := parseRecTail_enc t ((encodeRecTail t).length + 1) []
      (Nat.lt_succ_of_le (encodeRecTail_length t))
    rwa [List.append_nil] at this
  simp [parseRecListFirst, hparse, htail]

theorem parseRecord_enc (l : List (String × String)) :
    parseRecord (encodeRecord l) = some l := by
  cases l with
  | nil => rfl
  | cons kv t =>
    have hA : encodePairChars kv.1 kv.2 ++ encodeRecTail t =
        '"' :: ((encChars kv.1.data ++ '"' :: ':' :: '"' ::
          (encChars kv.2.data ++ ['"'])) ++ encodeRecTail t) := by
      simp [encodePairChars]
    have hhead : (encodeRecord (kv :: t)).data =
        '\x7b' :: (encodePairChars kv.1 kv.2 ++ encodeRecTail t) := rfl
    unfold parseRecord
    rw [hhead, hA]
    show (match parseRecordChars ('\x7b' :: '"' :: _) with
      | some (l, []) => some l
      | _ => none) = some (kv :: t)
    rw [show parseRecordChars ('\x7b' :: '"' ::
        ((encChars kv.1.data ++ '"' :: ':' :: '"' ::
          (encChars kv.2.data ++ ['"'])) ++ encodeRecTail t)) =
      parseRecListFirst ('"' ::
        ((encChars kv.1.data ++ '"' :: ':' :: '"' ::
          (encChars kv.2.data ++ ['"'])) ++ encodeRecTail t)) from by
        simp [parseRecordChars]]
    rw [← hA, parseRecListFirst_enc]

/-! ### The platform clock and ISO-8601 timestamps

`new Date()` is modelled as a broken-down UTC time; `toISOString` renders it
as `YYYY-MM-DDTHH:mm:ss.sssZ`.  `Date.parse` is modelled on the ISO format
that this layer itself produces (the platform accepts a superset; the layer
only ever validates timestamps of this shape). -/

structure DateTime where
  year : Nat
  month : Nat
  day : Nat
  hour : Nat
  minute : Nat
  second : Nat
  ms : Nat
deriving DecidableEq

/-- Component ranges guaranteed for a real clock reading in the
four-digit-year era. -/
def DateTime.Valid (t : DateTime) : Prop :=
  t.year < 10000 ∧ 1 ≤ t.month ∧ t.month ≤ 12 ∧ 1 ≤ t.day ∧ t.day ≤ 31 ∧
    t.hour < 24 ∧ t.minute < 60 ∧ t.second < 60 ∧ t.ms < 1000

instance (t : DateTime) : Decidable t.Valid := by
  unfold DateTime.Valid; infer_instance

/-- Two-digit zero-padded decimal field. -/
def pad2Chars (n : Nat) : List Char :=
  if n < 10 then '0' :: (decDigits n).map digitChar else (decDigits n).map digitChar

/-- Four-digit zero-padded decimal field. -/
def pad4Chars (n : Nat) : List Char := pad2Chars (n / 100) ++ pad2Chars (n % 100)

/-- Three-digit zero-padded decimal field. -/
def pad3Chars (n : Nat) : List Char := digitChar (n / 100) :: pad2Chars (n % 100)

/-- The characters of `Date.prototype.toISOString`. -/
def toISOChars (t : DateTime) : List Char :=
  pad4Chars t.year ++ '-' :: (pad2Chars t.month ++ '-' :: (pad2Chars t.day ++
    'T' :: (pad2Chars t.hour ++ ':' :: (pad2Chars t.minute ++ ':' ::
      (pad2Chars t.second ++ '.' :: (pad3Chars t.ms ++ ['Z']))))))

/-- Model of `new Date().toISOString()` for clock reading `t`. -/
def toISOString (t : DateTime) : String := ⟨toISOChars t⟩

/-- Parse a two-digit decimal field. -/
def parse2 : List Char → Option (Nat × List Char)
  | a :: b :: r =>
    if a.isDigit && b.isDigit then some (digitVal a * 10 + digitVal b, r) else none
  | _ => none

/-- Parse a four-digit decimal field. -/
def parse4 (l : List Char) : Option (Nat × List Char) :=
  (parse2 l).bind (fun p => (parse2 p.2).map (fun q => (p.1 * 100 + q.1, q.2)))

/-- Parse a three-digit decimal field. -/
def parse3 : List Char → Option (Nat × List Char)
  | a :: r =>
    if a.isDigit then (parse2 r).map (fun q => (digitVal a * 100 + q.1, q.2)) else none
  | [] => none

/-- Model of `Date.parse` restricted to the UTC ISO format this layer
produces: returns the parsed components, or `none` (`NaN`) when the input is
not such a timestamp or a component is out of range. -/
def jsDateParseChars (l : List Char) : Option DateTime :=
  (parse4 l).bind fun py =>
  (expectPre ['-'] py.2).bind fun r2 =>
  (parse2 r2).bind fun pmo =>
  (expectPre ['-'] pmo.2).bind fun r4 =>
  (parse2 r4).bind fun pd =>
  (expectPre ['T'] pd.2).bind fun r6 =>
  (parse2 r6).bind fun ph =>
  (expectPre [':'] ph.2).bind fun r8 =>
  (parse2 r8).bind fun pmi =>
  (expectPre [':'] pmi.2).bind fun r10 =>
  (parse2 r10).bind fun ps =>
  (expectPre ['.'] ps.2).bind fun r12 =>
  (parse3 r12).bind fun pms =>
  if pms.2 = ['Z'] ∧ 1 ≤ pmo.1 ∧ pmo.1 ≤ 12 ∧ 1 ≤ pd.1 ∧ pd.1 ≤ 31 ∧
      ph.1 < 24 ∧ pmi.1 < 60 ∧ ps.1 < 60 then
    some ⟨py.1, pmo.1, pd.1, ph.1, pmi.1, ps.1, pms.1⟩
  else none

/-- Model of `Date.parse` on a timestamp string. -/
def jsDateParse (s : String) : Option DateTime := jsDateParseChars s.data

/-- `!isNaN(Date.parse(s))` in the model. -/
def dateParseable (s : String) : Bool := (jsDateParse s).isSome

/-- Decidable check used to establish `pad2Chars` facts for all `n < 100`. -/
def checkPad2 (n : Nat) : Bool :=
  match pad2Chars n with
  | [a, b] => a.isDigit && b.isDigit && (digitVal a * 10 + digitVal b == n)
  | _ => false

theorem checkPad2_true : ∀ n, n < 100 → checkPad2 n = true := by decide

theorem parse2_pad2 (n : Nat) (hn : n < 100) (r : List Char) :
    parse2 (pad2Chars n ++ r) = some (n, r) := by
  have h := checkPad2_true n hn
  unfold checkPad2 at h
  match hp : pad2Chars n with
  | [] => rw [hp] at h; simp at h
  | [a] => rw [hp] at h; simp at h
  | a :: b :: c :: t => rw [hp] at h; simp at h
  | [a, b] =>
    rw [hp] at h
    simp only [Bool.and_eq_true, beq_iff_eq] at h
    simp [parse2, h.1.1, h.1.2, h.2]

theorem parse4_pad4 (n : Nat) (hn : n < 10000) (r : List Char) :
    parse4 (pad4Chars n ++ r) = some (n, r) := by
  have h1 : n / 100 < 100 := by omega
  have h2 : n % 100 < 100 := Nat.mod_lt _ (by omega)
  have e1 := parse2_pad2 (n / 100) h1 (pad2Chars (n % 100) ++ r)
  have e2 := parse2_pad2 (n % 100) h2 r
  simp [parse4, pad4Chars, List.append_assoc, e1, e2]
  omega

theorem parse3_pad3 (n : Nat) (hn : n < 1000) (r : List Char) :
    parse3 (pad3Chars n ++ r) = some (n, r) := by
  have h1 : n / 100 < 10 := by omega
  have h2 : n % 100 < 100 := Nat.mod_lt _ (by omega)
  have e2 := parse2_pad2 (n % 100) h2 r
  simp [parse3, pad3Chars, isDigit_digitChar _ h1, digitVal_digitChar _ h1, e2]
  omega

set_option maxHeartbeats 1000000 in
theorem jsDateParse_toISOString (t : DateTime) (ht : t.Valid) :
    jsDateParse (toISOString t) = some t := by
  obtain ⟨y, mo, d, h, mi, s, ms⟩ := t
  obtain ⟨h1, h2, h3, h4, h5, h6, h7, h8, h9⟩ := ht
  simp only at h1 h2 h3 h4 h5 h6 h7 h8 h9
  unfold jsDateParse toISOString
  have e4 := parse4_pad4 y h1
  have emo := parse2_pad2 mo (by omega)
  have ed := parse2_pad2 d (by omega)
  have eh := parse2_pad2 h (by omega)
  have emi := parse2_pad2 mi (by omega)
  have es := parse2_pad2 s (by omega)
  have ems := parse3_pad3 ms (by omega)
  simp [jsDateParseChars, toISOChars, e4, emo, ed, eh, emi, es, ems, expectPre,
    h2, h3, h4, h5, h6, h7, h8]

/-! ### The `chats` table and its operations (`cloudflare-db.ts`)

A D1 result row is modelled as a record of column values; the table as the
list of its rows in insertion order.  Optional JS arguments (`urlId?` etc.)
are modelled as `Option`, bound as SQL `NULL` when absent.  Thrown
exceptions are `Except.error ()` (every `catch` in the source logs and
rethrows unchanged, so errors simply propagate). -/

structure ChatRow where
  id : String
  urlId : Option String
  messages : String
  description : Option String
  timestamp : String
  metadata : Option String
deriving DecidableEq

/-- JavaScript truthiness of a nullable string (`null`/`undefined` and `""`
are falsy). -/
def truthyStr : Option String → Bool
  | none => false
  | some s => !s.isEmpty

/-- The record shape returned by the chat lookup functions
(`ChatHistoryItem`). -/
structure ChatHistoryItem where
  id : String
  urlId : Option String
  messages : List Message
  description : Option String
  timestamp : String
  metadata : Option ChatMetadata
deriving DecidableEq

/-- `timestamp ?? new Date().toISOString()`. -/
def finalTs (timestamp : Option String) (now : DateTime) : String :=
  match timestamp with
  | some ts => ts
  | none => toISOString now

/-- `setMessages(db, id, messages, urlId?, description?, timestamp?, metadata?)`:
validates an explicit timestamp, then upserts by primary key `id`; on
conflict `messages`/`timestamp` are replaced and `urlId`/`description`/
`metadata` are `COALESCE`d with the existing values. -/
def setMessages (db : List ChatRow) (id : String) (messages : List Message)
    (urlId description timestamp : Option String) (metadata : Option ChatMetadata)
    (now : DateTime) : Except Unit (List ChatRow) :=
  if truthyStr timestamp && !dateParseable (timestamp.getD "") then
    .error ()
  else
    let finalTimestamp := finalTs timestamp now
    let metadataStr := metadata.map encodeMetadata
    let messagesStr := encodeMessages messages
    if db.any (fun r => r.id == id) then
      .ok (db.map (fun r =>
        if r.id == id then
          { r with
            messages := messagesStr
            urlId := urlId.orElse (fun _ => r.urlId)
            description := description.orElse (fun _ => r.description)
            timestamp := finalTimestamp
            metadata := metadataStr.orElse (fun _ => r.metadata) }
        else r))
    else
      .ok (db ++ [⟨id, urlId, messagesStr, description, finalTimestamp, metadataStr⟩])

/-- Convert a raw row to a `ChatHistoryItem`: `JSON.parse` the messages
column (throwing on malformed data) and the metadata column when truthy. -/
def rowToItem (r : ChatRow) : Except Unit ChatHistoryItem :=
  match parseMessages r.messages with
  | none => .error ()
  | some ms =>
    match r.metadata with
    | none => .ok ⟨r.id, r.urlId, ms, r.description, r.timestamp, none⟩
    | some mdStr =>
      if mdStr.isEmpty then .ok ⟨r.id, r.urlId, ms, r.description, r.timestamp, none⟩
      else
        match parseMetadata mdStr with
        | none => .error ()
        | some md => .ok ⟨r.id, r.urlId, ms, r.description, r.timestamp, some md⟩

/-- `getMessagesById`: `SELECT * FROM chats WHERE id = ?`, `null` when no row
matches. -/
def getMessagesById (db : List ChatRow) (id : String) :
    Except Unit (Option ChatHistoryItem) :=
  match db.find? (fun r => r.id == id) with
  | none => .ok none
  | some r => (rowToItem r).map some

/-- `getMessagesByUrlId`: `SELECT * FROM chats WHERE urlId = ?` (a `NULL`
`urlId` never matches). -/
def getMessagesByUrlId (db : List ChatRow) (urlId : String) :
    Except Unit (Option ChatHistoryItem) :=
  match db.find? (fun r => r.urlId == some urlId) with
  | none => .ok none
  | some r => (rowToItem r).map some

/-- `getMessages`: resolve by primary id first, then fall back to `urlId`. -/
def getMessages (db : List ChatRow) (id : String) :
    Except Unit (Option ChatHistoryItem) :=
  match getMessagesById db id with
  | .error e => .error e
  | .ok (some item) => .ok (some item)
  | .ok none => getMessagesByUrlId db id

/-- `getNextId`: `SELECT MAX(CAST(id AS INTEGER)) as maxId FROM chats`, then
`String((maxId || 0) + 1)`; the SQL `MAX` of an empty table is `NULL`, which
`|| 0` turns into `0`. -/
def getNextId (db : List ChatRow) : String :=
  natToString ((db.map (fun r => sqliteCastInt r.id)).foldr max 0 + 1)

/-- `SELECT urlId FROM chats WHERE urlId IS NOT NULL`. -/
def getUrlIds (db : List ChatRow) : List String := db.filterMap (fun r => r.urlId)

/-- The template literal `` `${id}-${i}` ``. -/
def urlSuffix (id : String) (i : Nat) : String := id ++ "-" ++ natToString i

/-- The `while (idList.includes(id + "-" + i)) i++;` loop, with fuel. -/
def searchSuffix (idList : List String) (id : String) : Nat → Nat → Nat
  | 0, i => i
  | fuel + 1, i =>
    if urlSuffix id i ∈ idList then searchSuffix idList id fuel (i + 1)
    else i

/-- `getUrlId`: return the candidate unchanged unless it collides with an
existing `urlId`, else append the first free `-i` suffix starting at `2`. -/
def getUrlId (db : List ChatRow) (id : String) : String :=
  let idList := getUrlIds db
  if id ∉ idList then id
  else urlSuffix id (searchSuffix idList id (idList.length + 1) 2)

/-- `createChatFromMessages`: allocate a fresh id and urlId, then insert via
`setMessages`; returns the updated table and the new id. -/
def createChatFromMessages (db : List ChatRow) (description : String)
    (messages : List Message) (metadata : Option ChatMetadata) (now : DateTime) :
    Except Unit (List ChatRow × String) :=
  let id := getNextId db
  let urlId := getUrlId db id
  (setMessages db id messages (some urlId) (some description) none metadata now).map
    (fun db2 => (db2, id))

/-- `forkChat`: copy messages up to and including the given message id into a
new chat whose description is `"<desc> (fork)"`, or `"Forked chat"` when the
source description is falsy. -/
def forkChat (db : List ChatRow) (chatId messageId : String) (now : DateTime) :
    Except Unit (List ChatRow × String) :=
  match getMessages db chatId with
  | .error e => .error e
  | .ok none => .error ()
  | .ok (some chat) =>
    match chat.messages.findIdx? (fun m => m.id == messageId) with
    | none => .error ()
    | some ix =>
      createChatFromMessages db
        (if truthyStr chat.description then chat.description.getD "" ++ " (fork)"
         else "Forked chat")
        (chat.messages.take (ix + 1)) none now

/-- `duplicateChat`: copy the whole message sequence and metadata into a new
chat whose description is `"<desc> (copy)"`, or `"Duplicated chat"` when the
source description is falsy. -/
def duplicateChat (db : List ChatRow) (id : String) (now : DateTime) :
    Except Unit (List ChatRow × String) :=
  match getMessages db id with
  | .error e => .error e
  | .ok none => .error ()
  | .ok (some chat) =>
    createChatFromMessages db
      (if truthyStr chat.description then chat.description.getD "" ++ " (copy)"
       else "Duplicated chat")
      chat.messages chat.metadata now

/-! ### The R2 object store (`cloudflare-storage.ts`)

The bucket is an association list from full keys to stored objects, in
insertion order (the spec leaves listing order backend-defined).  Every
fallible bucket call takes an explicit `ok : Bool` describing whether the
backend succeeded on that call; `ok = false` models the `await` throwing. -/

/-- The payload forms accepted by `storeFile`
(`string | ArrayBuffer | Uint8Array`). -/
inductive FileData where
  | str (s : String)
  | arrayBuffer (bytes : List Nat)
  | uint8Array (bytes : List Nat)
deriving DecidableEq

/-- A stored R2 object: payload plus optional custom metadata. -/
structure R2Object where
  data : FileData
  customMetadata : Option (List (String × String))
deriving DecidableEq

/-- Look an object up by key. -/
def bucketGet (b : List (String × R2Object)) (k : String) : Option R2Object :=
  (b.find? (fun p => p.1 == k)).map (fun p => p.2)

/-- `bucket.put`: overwrite the object at `k` or append a new one. -/
def bucketPut (b : List (String × R2Object)) (k : String) (o : R2Object) :
    List (String × R2Object) :=
  if b.any (fun p => p.1 == k) then b.map (fun p => if p.1 == k then (k, o) else p)
  else b ++ [(k, o)]

/-- `bucket.delete`: remove the object at `k` (idempotent). -/
def bucketDelete (b : List (String × R2Object)) (k : String) :
    List (String × R2Object) :=
  b.filter (fun p => !(p.1 == k))

/-- The regex replace `/\/+/g → "/"`: collapse every run of slashes; the
`Bool` records whether the previous character was a slash. -/
def collapseAux : Bool → List Char → List Char
  | _, [] => []
  | prevSlash, c :: t =>
    if c = '/' then
      if prevSlash then collapseAux true t else '/' :: collapseAux true t
    else c :: collapseAux false t

/-- Collapse every run of `/` in a string to a single `/`. -/
def collapseSlashes (s : String) : String := ⟨collapseAux false s.data⟩

/-- `getFullKey`: under a truthy instance-level prefix, prepend it with a
slash and collapse slash runs; otherwise the key is used as-is. -/
def getFullKey (pre key : String) : String :=
  if pre.isEmpty then key else collapseSlashes (pre ++ "/" ++ key)

/-- Whether the string that was consumed so far ends in a slash (`b` is the
state before consuming `l`); tracks the run state of `collapseAux`. -/
def slashState : Bool → List Char → Bool
  | b, [] => b
  | _, c :: t => slashState (decide (c = '/')) t

/-- The R2 `list({ prefix })` key filter: `s` lies under prefix `pfx`. -/
def strStartsWith (s pfx : String) : Bool := pfx.data.isPrefixOf s.data

/-- JS `String.prototype.replace` with a plain-string pattern: replace the
first occurrence only (an empty pattern matches at position 0). -/
def replaceFirstAux (pat repl : List Char) : List Char → List Char
  | [] => if pat = [] then repl else []
  | c :: t =>
    if pat.isPrefixOf (c :: t) then repl ++ (c :: t).drop pat.length
    else c :: replaceFirstAux pat repl t

/-- JS `s.replace(pat, repl)` for string `pat` (first occurrence only). -/
def replaceFirst (s pat repl : String) : String :=
  ⟨replaceFirstAux pat.data repl.data s.data⟩

/-- `CloudflareStorage.storeFile`: put the blob at the composed full key and
return that key; a backend failure rethrows and leaves the bucket unchanged. -/
def storageStoreFile (pre : String) (b : List (String × R2Object)) (ok : Bool)
    (key : String) (data : FileData) (metadata : Option (List (String × String))) :
    List (String × R2Object) × Except Unit String :=
  if ok then (bucketPut b (getFullKey pre key) ⟨data, metadata⟩, .ok (getFullKey pre key))
  else (b, .error ())

/-- `CloudflareStorage.getFile`: fetch the blob or `null`; failures rethrow. -/
def storageGetFile (pre : String) (b : List (String × R2Object)) (ok : Bool)
    (key : String) : Except Unit (Option FileData) :=
  if ok then .ok ((bucketGet b (getFullKey pre key)).map (fun o => o.data))
  else .error ()

/-- `CloudflareStorage.getFileAsText`: like `getFile` but via `object.text()`;
the byte-to-text decoding is opaque to the claims, so the stored payload is
returned. -/
def storageGetFileAsText (pre : String) (b : List (String × R2Object)) (ok : Bool)
    (key : String) : Except Unit (Option FileData) :=
  if ok then .ok ((bucketGet b (getFullKey pre key)).map (fun o => o.data))
  else .error ()

/-- `CloudflareStorage.deleteFile`: idempotent delete; failures rethrow. -/
def storageDeleteFile (pre : String) (b : List (String × R2Object)) (ok : Bool)
    (key : String) : List (String × R2Object) × Except Unit Unit :=
  if ok then (bucketDelete b (getFullKey pre key), .ok ()) else (b, .error ())

/-- `CloudflareStorage.listFiles`: list keys under `getFullKey(pfx)` bounded
by `limit`, then strip the instance-level prefix from each key with
`key.replace(this.prefix, "")` (first occurrence, prefix only — not the
joining slash). -/
def storageListFiles (pre : String) (b : List (String × R2Object)) (ok : Bool)
    (pfx : String) (limit : Nat) : Except Unit (List String) :=
  if ok then
    .ok ((((b.filter (fun p => strStartsWith p.1 (getFullKey pre pfx))).take limit).map
      (fun p => replaceFirst p.1 pre "")))
  else .error ()

/-- `CloudflareStorage.getFileMetadata`: existence probe (`head`) returning
the attached metadata map or `null`; failures rethrow. -/
def storageGetFileMetadata (pre : String) (b : List (String × R2Object)) (ok : Bool)
    (key : String) : Except Unit (Option (List (String × String))) :=
  if ok then .ok ((bucketGet b (getFullKey pre key)).bind (fun o => o.customMetadata))
  else .error ()

/-- `CloudflareStorage.updateFileMetadata`: fetch the blob and rewrite it
with the replacement metadata map; missing blob or backend failure throws. -/
def storageUpdateFileMetadata (pre : String) (b : List (String × R2Object)) (ok : Bool)
    (key : String) (metadata : List (String × String)) :
    List (String × R2Object) × Except Unit Unit :=
  if ok then
    match bucketGet b (getFullKey pre key) with
    | none => (b, .error ())
    | some o => (bucketPut b (getFullKey pre key) ⟨o.data, some metadata⟩, .ok ())
  else (b, .error ())

/-- `CloudflareStorage.fileExists`: `head` probe; **any** lookup failure is
caught and reported as `false` instead of rethrowing. -/
def storageFileExists (pre : String) (b : List (String × R2Object)) (ok : Bool)
    (key : String) : Bool :=
  if ok then (bucketGet b (getFullKey pre key)).isSome else false

/-! ### The file manager (`CloudflareFileManager`)

Composes the object store and the `files` table: a stored file is a blob in
R2 plus a metadata row in D1, written in that order. -/

/-- A row of the `files` table. -/
structure FilesRow where
  id : String
  chatId : Option String
  path : String
  contentType : Option String
  size : Nat
  timestamp : String
  metadata : Option String
deriving DecidableEq

/-- The record shape returned by the file-metadata reads (`FileMetadata`). -/
structure FileMetadataRec where
  id : String
  chatId : Option String
  path : String
  contentType : Option String
  size : Nat
  timestamp : String
  metadata : Option (List (String × String))
deriving DecidableEq

/-- The combined state owned by the file manager: the R2 bucket and the D1
`files` table. -/
structure FMState where
  bucket : List (String × R2Object)
  files : List FilesRow
deriving DecidableEq

/-- The size computation of `storeFile`: UTF-8 encoded length for strings,
`byteLength` for binary payloads. -/
def byteSizeOfData : FileData → Nat
  | .str s => s.utf8ByteSize
  | .arrayBuffer bytes => bytes.length
  | .uint8Array bytes => bytes.length

/-- The object metadata attached by `storeFile`:
`{...metadata, path, contentType, chatId}`. -/
def fmObjectMetadata (metadata : Option (List (String × String))) (path : String)
    (contentType chatId : Option String) : List (String × String) :=
  metadata.getD [] ++ [("path", path)] ++
    (match contentType with | some ct => [("contentType", ct)] | none => []) ++
    (match chatId with | some c => [("chatId", c)] | none => [])

/-- `CloudflareFileManager.storeFile`: write the blob under the generated id
first, then insert the metadata row; `id` stands for the generated
`crypto.randomUUID()`, `now` for the clock reading, `putOk`/`insertOk` for
the outcomes of the two backend calls (the insert also fails on a primary-key
conflict). -/
def fmStoreFile (pre : String) (st : FMState) (putOk insertOk : Bool)
    (id : String) (now : DateTime) (fileData : FileData) (path : String)
    (chatId contentType : Option String) (metadata : Option (List (String × String))) :
    FMState × Except Unit String :=
  match storageStoreFile pre st.bucket putOk id fileData
      (some (fmObjectMetadata metadata path contentType chatId)) with
  | (b2, .error e) => (⟨b2, st.files⟩, .error e)
  | (b2, .ok _) =>
    let size := byteSizeOfData fileData
    let ts := toISOString now
    let metadataStr := metadata.map encodeRecord
    let chatIdCol := if truthyStr chatId then chatId else none
    let contentTypeCol := if truthyStr contentType then contentType else none
    if insertOk && !(st.files.any (fun r => r.id == id)) then
      (⟨b2, st.files ++ [⟨id, chatIdCol, path, contentTypeCol, size, ts, metadataStr⟩]⟩,
        .ok id)
    else (⟨b2, st.files⟩, .error ())

/-- `CloudflareFileManager.deleteFile`: delete the blob first, then the
metadata row; if the blob delete throws, the row delete does not run. -/
def fmDeleteFile (pre : String) (st : FMState) (delOk rowDelOk : Bool) (id : String) :
    FMState × Except Unit Unit :=
  match storageDeleteFile pre st.bucket delOk id with
  | (b2, .error e) => (⟨b2, st.files⟩, .error e)
  | (b2, .ok _) =>
    if rowDelOk then (⟨b2, st.files.filter (fun r => !(r.id == id))⟩, .ok ())
    else (⟨b2, st.files⟩, .error ())

/-- Convert a `files` row to the returned record, `JSON.parse`ing the
metadata column when truthy. -/
def filesRowToMetadata (r : FilesRow) : Except Unit FileMetadataRec :=
  match r.metadata with
  | none => .ok ⟨r.id, r.chatId, r.path, r.contentType, r.size, r.timestamp, none⟩
  | some s =>
    if s.isEmpty then .ok ⟨r.id, r.chatId, r.path, r.contentType, r.size, r.timestamp, none⟩
    else
      match parseRecord s with
      | none => .error ()
      | some md => .ok ⟨r.id, r.chatId, r.path, r.contentType, r.size, r.timestamp, some md⟩

/-- `CloudflareFileManager.getFileMetadata`: `SELECT * FROM files WHERE id = ?`,
`null` when no row matches; `dbOk` is the backend outcome of the query. -/
def fmGetFileMetadata (st : FMState) (dbOk : Bool) (id : String) :
    Except Unit (Option FileMetadataRec) :=
  if dbOk then
    match st.files.find? (fun r => r.id == id) with
    | none => .ok none
    | some r => (filesRowToMetadata r).map some
  else .error ()

/-! ### Theorems for the specified claims -/

/-- C1: For every input to `FileManager.storeFile`, if the blob write to the
object store fails, no metadata row is inserted into the `files` table and
the error propagates to the caller; the blob write always precedes the row
insert (a failed row insert still leaves the blob written, never the other
way round). -/
theorem claim_C1_storeFile_blob_write_first (pre : String) (st : FMState)
    (insertOk : Bool) (id : String) (now : DateTime) (fileData : FileData)
    (path : String) (chatId contentType : Option String)
    (metadata : Option (List (String × String))) :
    (fmStoreFile pre st false insertOk id now fileData path chatId contentType
        metadata).1.files = st.files ∧
    (fmStoreFile pre st false insertOk id now fileData path chatId contentType
        metadata).2 = .error () ∧
    (fmStoreFile pre st false insertOk id now fileData path chatId contentType
        metadata).1.bucket = st.bucket ∧
    (fmStoreFile pre st true false id now fileData path chatId contentType
        metadata).1.bucket = bucketPut st.bucket (getFullKey pre id)
      ⟨fileData, some (fmObjectMetadata metadata path contentType chatId)⟩ ∧
    (fmStoreFile pre st true false id now fileData path chatId contentType
        metadata).1.files = st.files ∧
    (fmStoreFile pre st true false id now fileData path chatId contentType
        metadata).2 = .error () := by
  refine ⟨rfl, rfl, rfl, ?_, ?_, ?_⟩ <;>
    simp [fmStoreFile, storageStoreFile]

/-- C2: `FileManager.deleteFile` deletes the blob before the metadata row; if
the blob delete throws, the row delete does not run and the exception
propagates, leaving the whole state (in particular the `files` row)
unchanged.  When the blob delete succeeds and the row delete fails, the blob
is already gone while the row survives — evidencing the order. -/
theorem claim_C2_deleteFile_blob_delete_first (pre : String) (st : FMState)
    (rowDelOk : Bool) (id : String) :
    fmDeleteFile pre st false rowDelOk id = (st, .error ()) ∧
    (fmDeleteFile pre st true false id).1.bucket =
      bucketDelete st.bucket (getFullKey pre id) ∧
    (fmDeleteFile pre st true false id).1.files = st.files ∧
    (fmDeleteFile pre st true false id).2 = .error () := by
  refine ⟨?_, ?_, ?_, ?_⟩ <;> simp [fmDeleteFile, storageDeleteFile]

/-- C9: `ObjectStore.fileExists` returns `false` (it does not throw) whenever
the underlying lookup fails, and `true` exactly when the probe finds the
object; every other object-store operation propagates a backend failure as an
error instead of swallowing it. -/
theorem claim_C9_fileExists_swallows_failure :
    (∀ pre b key, storageFileExists pre b false key = false) ∧
    (∀ pre b key, storageFileExists pre b true key =
      (bucketGet b (getFullKey pre key)).isSome) ∧
    (∀ pre b key data md, (storageStoreFile pre b false key data md).2 = .error ()) ∧
    (∀ pre b key, storageGetFile pre b false key = .error ()) ∧
    (∀ pre b key, storageGetFileAsText pre b false key = .error ()) ∧
    (∀ pre b key, (storageDeleteFile pre b false key).2 = .error ()) ∧
    (∀ pre b pfx limit, storageListFiles pre b false pfx limit = .error ()) ∧
    (∀ pre b key, storageGetFileMetadata pre b false key = .error ()) ∧
    (∀ pre b key md, (storageUpdateFileMetadata pre b false key md).2 = .error ()) := by
  refine ⟨?_, ?_, ?_, ?_, ?_, ?_, ?_, ?_, ?_⟩ <;> intros <;> rfl

/-- C4: `getNextId` interprets each existing id as an integer, takes the
maximum, and returns `max + 1` as a decimal string; an empty table yields
`"1"` and a table with ids `{"1","2","7"}` yields `"8"`. -/
theorem claim_C4_getNextId :
    (∀ (db : List ChatRow) (vs : List Nat),
      db.map (fun r => r.id) = vs.map natToString →
      getNextId db = natToString (vs.foldr max 0 + 1)) ∧
    getNextId [] = "1" ∧
    getNextId [⟨"1", none, "[]", none, "", none⟩, ⟨"2", none, "[]", none, "", none⟩,
      ⟨"7", none, "[]", none, "", none⟩] = "8" := by
  refine ⟨?_, by decide, by decide⟩
  intro db vs h
  have hcast : db.map (fun r => sqliteCastInt r.id) = vs := by
    have h1 : db.map (fun r => sqliteCastInt r.id) =
        (db.map (fun r => r.id)).map sqliteCastInt := by
      rw [List.map_map]; rfl
    rw [h1, h, List.map_map]
    have h2 : (sqliteCastInt ∘ natToString) = id := by
      funext v
      simp [Function.comp, sqliteCastInt_natToString]
    rw [h2, List.map_id]
  rw [getNextId, hcast]

/-- Closed witness for C4: a table with the single id `"7"` yields `"8"`. -/
theorem claim_C4_getNextId_witness :
    ([(⟨"7", none, "[]", none, "", none⟩ : ChatRow)].map (fun r => r.id) =
      [7].map natToString) ∧
    getNextId [⟨"7", none, "[]", none, "", none⟩] =
      natToString ([7].foldr max 0 + 1) :=
  ⟨by decide, claim_C4_getNextId.1 [⟨"7", none, "[]", none, "", none⟩] [7] (by decide)⟩

theorem urlSuffix_inj (id : String) : Function.Injective (urlSuffix id) := by
  intro i j h
  have hd := congrArg String.data h
  simp only [urlSuffix, String.data_append, List.append_assoc] at hd
  have hd2 := List.append_cancel_left hd
  have hd3 := List.append_cancel_left hd2
  apply natToString_inj
  cases hni : natToString i with
  | mk di =>
    cases hnj : natToString j with
    | mk dj =>
      rw [hni, hnj] at hd3
      simp only at hd3
      rw [hd3]

theorem exists_free_suffix (idList : List String) (id : String) (start : Nat) :
    ∃ j, start ≤ j ∧ j < start + idList.length + 1 ∧ urlSuffix id j ∉ idList := by
  by_contra hcon
  push_neg at hcon
  have hinj : Set.InjOn (fun k => urlSuffix id (start + k))
      ↑(Finset.range (idList.length + 1)) := by
    intro a _ b _ hab
    have := urlSuffix_inj id hab
    omega
  have hsub : (Finset.range (idList.length + 1)).image (fun k => urlSuffix id (start + k)) ⊆
      idList.toFinset := by
    intro x hx
    simp only [Finset.mem_image, Finset.mem_range] at hx
    obtain ⟨k, hk, rfl⟩ := hx
    have := hcon (start + k) (by omega) (by omega)
    simpa [List.mem_toFinset] using this
  have hcard := Finset.card_le_card hsub
  rw [Finset.card_image_of_injOn hinj, Finset.card_range] at hcard
  have := List.toFinset_card_le idList
  omega

theorem searchSuffix_spec (idList : List String) (id : String) :
    ∀ fuel start, (∃ j, start ≤ j ∧ j < start + fuel ∧ urlSuffix id j ∉ idList) →
      urlSuffix id (searchSuffix idList id fuel start) ∉ idList ∧
      start ≤ searchSuffix idList id fuel start ∧
      ∀ j, start ≤ j → j < searchSuffix idList id fuel start →
        urlSuffix id j ∈ idList := by
  intro fuel
  induction fuel with
  | zero =>
    intro start h
    obtain ⟨j, h1, h2, _⟩ := h
    omega
  | succ fuel ih =>
    intro start h
    by_cases hmem : urlSuffix id start ∈ idList
    · have hex : ∃ j, start + 1 ≤ j ∧ j < (start + 1) + fuel ∧
          urlSuffix id j ∉ idList := by
        obtain ⟨j, h1, h2, h3⟩ := h
        rcases Nat.eq_or_lt_of_le h1 with heq | hlt
        · exact absurd hmem (heq ▸ h3)
        · exact ⟨j, by omega, by omega, h3⟩
      have hrec := ih (start + 1) hex
      simp only [searchSuffix, if_pos hmem]
      refine ⟨hrec.1, by omega, ?_⟩
      intro j hj1 hj2
      rcases Nat.eq_or_lt_of_le hj1 with heq | hlt
      · exact heq ▸ hmem
      · exact hrec.2.2 j (by omega) hj2
    · simp only [searchSuffix, if_neg hmem]
      exact ⟨hmem, Nat.le_refl _, fun j h1 h2 => by omega⟩

/-- The concrete table of the C3 example: existing urlIds `{"5","5-2"}`. -/
def chatDbC3 : List ChatRow :=
  [⟨"1", some "5", "[]", none, "", none⟩, ⟨"2", some "5-2", "[]", none, "", none⟩]

/-- C3: `getUrlId` returns the candidate unchanged when it is not an existing
urlId, and otherwise the candidate with the smallest integer suffix `≥ 2` not
already taken; the result is never an existing urlId; for candidate `"5"`
against existing urlIds `{"5","5-2"}` the result is `"5-3"`. -/
theorem claim_C3_getUrlId :
    (∀ db id, id ∉ getUrlIds db → getUrlId db id = id) ∧
    (∀ db id, id ∈ getUrlIds db →
      ∃ k, 2 ≤ k ∧ getUrlId db id = urlSuffix id k ∧
        urlSuffix id k ∉ getUrlIds db ∧
        ∀ j, 2 ≤ j → j < k → urlSuffix id j ∈ getUrlIds db) ∧
    (∀ db id, getUrlId db id ∉ getUrlIds db) ∧
    getUrlId chatDbC3 "5" = "5-3" := by
  have hpart1 : ∀ db id, id ∉ getUrlIds db → getUrlId db id = id := by
    intro db id h
    simp [getUrlId, h]
  have hpart2 : ∀ db id, id ∈ getUrlIds db →
      ∃ k, 2 ≤ k ∧ getUrlId db id = urlSuffix id k ∧
        urlSuffix id k ∉ getUrlIds db ∧
        ∀ j, 2 ≤ j → j < k → urlSuffix id j ∈ getUrlIds db := by
    intro db id h
    have hex : ∃ j, 2 ≤ j ∧ j < 2 + ((getUrlIds db).length + 1) ∧
        urlSuffix id j ∉ getUrlIds db := by
      obtain ⟨j, h1, h2, h3⟩ := exists_free_suffix (getUrlIds db) id 2
      exact ⟨j, h1, by omega, h3⟩
    have hspec := searchSuffix_spec (getUrlIds db) id ((getUrlIds db).length + 1) 2 hex
    refine ⟨searchSuffix (getUrlIds db) id ((getUrlIds db).length + 1) 2,
      hspec.2.1, ?_, hspec.1, hspec.2.2⟩
    simp [getUrlId, h]
  refine ⟨hpart1, hpart2, ?_, by decide⟩
  intro db id
  by_cases h : id ∈ getUrlIds db
  · obtain ⟨k, _, heq, hfree, _⟩ := hpart2 db id h
    rw [heq]
    exact hfree
  · rw [hpart1 db id h]
    exact h

/-- Closed witness for C3: candidate `"5"` against existing urlIds
`{"5","5-2"}`. -/
theorem claim_C3_getUrlId_witness :
    ("5" ∈ getUrlIds chatDbC3) ∧
    ∃ k, 2 ≤ k ∧ getUrlId chatDbC3 "5" = urlSuffix "5" k ∧
      urlSuffix "5" k ∉ getUrlIds chatDbC3 ∧
      ∀ j, 2 ≤ j → j < k → urlSuffix "5" j ∈ getUrlIds chatDbC3 :=
  ⟨by decide, claim_C3_getUrlId.2.1 chatDbC3 "5" (by decide)⟩

theorem find?_map_update (db : List ChatRow) (id : String) (f : ChatRow → ChatRow)
    (hf : ∀ r, (f r).id = r.id) :
    (db.map (fun r => if r.id == id then f r else r)).find? (fun r => r.id == id) =
      (db.find? (fun r => r.id == id)).map f := by
  induction db with
  | nil => rfl
  | cons r t ih =>
    by_cases hr : (r.id == id) = true
    · have hfr : ((f r).id == id) = true := by rw [hf]; exact hr
      rw [List.map_cons, if_pos hr,
        List.find?_cons_of_pos (p := fun (r : ChatRow) => r.id == id) _ hfr,
        List.find?_cons_of_pos (p := fun (r : ChatRow) => r.id == id) _ hr, Option.map_some']
    · rw [List.map_cons, if_neg hr,
        List.find?_cons_of_neg (p := fun (r : ChatRow) => r.id == id) _ hr,
        List.find?_cons_of_neg (p := fun (r : ChatRow) => r.id == id) _ hr, ih]

theorem setMessages_insert_find (db : List ChatRow) (id : String) (M : List Message)
    (u d t : Option String) (md : Option ChatMetadata) (now : DateTime)
    (db2 : List ChatRow)
    (h : setMessages db id M u d t md now = .ok db2)
    (hnew : db.find? (fun r => r.id == id) = none) :
    db2 = db ++ [⟨id, u, encodeMessages M, d, finalTs t now, md.map encodeMetadata⟩] := by
  have hany : ¬ ((db.any fun r => r.id == id) = true) := by
    rw [List.any_eq_true]
    rw [List.find?_eq_none] at hnew
    rintro ⟨x, hx, hpx⟩
    exact hnew x hx hpx
  unfold setMessages at h
  by_cases hval : (truthyStr t && !dateParseable (t.getD "")) = true
  · rw [if_pos hval] at h
    cases h
  · rw [if_neg hval] at h
    rw [if_neg hany] at h
    injection h with h2
    exact h2.symm

theorem setMessages_update_find (db : List ChatRow) (id : String) (M : List Message)
    (u d t : Option String) (md : Option ChatMetadata) (now : DateTime)
    (db2 : List ChatRow) (r0 : ChatRow)
    (h : setMessages db id M u d t md now = .ok db2)
    (hold : db.find? (fun r => r.id == id) = some r0) :
    db2.find? (fun r => r.id == id) =
      some ⟨r0.id, u.orElse (fun _ => r0.urlId), encodeMessages M,
        d.orElse (fun _ => r0.description), finalTs t now,
        (md.map encodeMetadata).orElse (fun _ => r0.metadata)⟩ := by
  have hmem := List.mem_of_find?_eq_some hold
  have hp0 := List.find?_some hold
  have hany : (db.any fun r => r.id == id) = true :=
    List.any_eq_true.mpr ⟨r0, hmem, hp0⟩
  unfold setMessages at h
  by_cases hval : (truthyStr t && !dateParseable (t.getD "")) = true
  · rw [if_pos hval] at h
    cases h
  · rw [if_neg hval] at h
    rw [if_pos hany] at h
    injection h with h2
    rw [← h2]
    rw [find?_map_update db id (fun r =>
      { r with
        messages := encodeMessages M
        urlId := u.orElse (fun _ => r.urlId)
        description := d.orElse (fun _ => r.description)
        timestamp := finalTs t now
        metadata := (md.map encodeMetadata).orElse (fun _ => r.metadata) })
      (fun r => rfl)]
    rw [hold, Option.map_some']

theorem find?_append_singleton_of_none (db : List ChatRow) (id : String)
    (row : ChatRow) (hnew : db.find? (fun r => r.id == id) = none)
    (hrow : (row.id == id) = true) :
    (db ++ [row]).find? (fun r => r.id == id) = some row := by
  rw [List.find?_append, hnew, Option.none_or,
    List.find?_cons_of_pos (p := fun (r : ChatRow) => r.id == id) _ hrow]

/-- C5: if `setMessages` is first called on an id with non-null
`urlId`/`description`/`metadata` and then called again on the same id with
those arguments null, the first call's values are preserved while the
`messages` blob and the timestamp are replaced unconditionally by the second
call. -/
theorem claim_C5_setMessages_coalesce_on_null (db : List ChatRow) (id : String)
    (M1 M2 : List Message) (u d : String) (md : ChatMetadata)
    (t2 : Option String) (now1 now2 : DateTime) (db1 db2 : List ChatRow)
    (h1 : setMessages db id M1 (some u) (some d) none (some md) now1 = .ok db1)
    (h2 : setMessages db1 id M2 none none t2 none now2 = .ok db2) :
    ∃ row, db2.find? (fun r => r.id == id) = some row ∧
      row.urlId = some u ∧ row.description = some d ∧
      row.metadata = some (encodeMetadata md) ∧
      row.messages = encodeMessages M2 ∧
      row.timestamp = finalTs t2 now2 := by
  have hrow1 : ∃ r1, db1.find? (fun r => r.id == id) = some r1 ∧
      r1.urlId = some u ∧ r1.description = some d ∧
      r1.metadata = some (encodeMetadata md) := by
    cases hold : db.find? (fun r => r.id == id) with
    | none =>
      have hins := setMessages_insert_find db id M1 (some u) (some d) none
        (some md) now1 db1 h1 hold
      rw [hins]
      exact ⟨_, find?_append_singleton_of_none db id _ hold (beq_self_eq_true id),
        rfl, rfl, rfl⟩
    | some r0 =>
      have hupd := setMessages_update_find db id M1 (some u) (some d) none
        (some md) now1 db1 r0 h1 hold
      exact ⟨_, hupd, rfl, rfl, rfl⟩
  obtain ⟨r1, hf1, hu1, hd1, hm1⟩ := hrow1
  have hupd2 := setMessages_update_find db1 id M2 none none t2 none now2 db2 r1 h2 hf1
  exact ⟨_, hupd2, hu1, hd1, hm1, rfl, rfl⟩

/-- Closed witness for C5: an insert with `urlId`/`description`/`metadata`
set, then an update with them null. -/
theorem claim_C5_setMessages_coalesce_on_null_witness :
    (setMessages [] "1" [] (some "u1") (some "desc") none
        (some ⟨"g", none, none⟩) ⟨2024, 1, 2, 3, 4, 5, 6⟩ =
      .ok [⟨"1", some "u1", "[]", some "desc", "2024-01-02T03:04:05.006Z",
        some (encodeMetadata ⟨"g", none, none⟩)⟩]) ∧
    (setMessages [⟨"1", some "u1", "[]", some "desc", "2024-01-02T03:04:05.006Z",
        some (encodeMetadata ⟨"g", none, none⟩)⟩] "1" [⟨"m1", "user", "hi"⟩]
        none none none none ⟨2025, 6, 7, 8, 9, 10, 11⟩ =
      .ok [⟨"1", some "u1", encodeMessages [⟨"m1", "user", "hi"⟩], some "desc",
        "2025-06-07T08:09:10.011Z", some (encodeMetadata ⟨"g", none, none⟩)⟩]) ∧
    ∃ row, ([⟨"1", some "u1", encodeMessages [⟨"m1", "user", "hi"⟩], some "desc",
        "2025-06-07T08:09:10.011Z",
        some (encodeMetadata ⟨"g", none, none⟩)⟩] : List ChatRow).find?
          (fun r => r.id == "1") = some row ∧
      row.urlId = some "u1" ∧ row.description = some "desc" ∧
      row.metadata = some (encodeMetadata ⟨"g", none, none⟩) ∧
      row.messages = encodeMessages [⟨"m1", "user", "hi"⟩] ∧
      row.timestamp = finalTs none ⟨2025, 6, 7, 8, 9, 10, 11⟩ :=
  ⟨by decide, by decide,
    claim_C5_setMessages_coalesce_on_null [] "1" [] [⟨"m1", "user", "hi"⟩]
      "u1" "desc" ⟨"g", none, none⟩ none ⟨2024, 1, 2, 3, 4, 5, 6⟩
      ⟨2025, 6, 7, 8, 9, 10, 11⟩
      [⟨"1", some "u1", "[]", some "desc", "2024-01-02T03:04:05.006Z",
        some (encodeMetadata ⟨"g", none, none⟩)⟩]
      [⟨"1", some "u1", encodeMessages [⟨"m1", "user", "hi"⟩], some "desc",
        "2025-06-07T08:09:10.011Z", some (encodeMetadata ⟨"g", none, none⟩)⟩]
      (by decide) (by decide)⟩

/-- A metadata column value the layer itself can have written: `NULL`, empty,
or the serialization of some metadata value. -/
def MetaColumnOk (m : Option String) : Prop :=
  match m with
  | none => True
  | some s => s = "" ∨ ∃ md, s = encodeMetadata md

/-- Well-formedness of a `chats` table: every metadata column was written by
this layer. -/
def MetaWF (db : List ChatRow) : Prop := ∀ r ∈ db, MetaColumnOk r.metadata

theorem isEmpty_false_of_data_ne (s : String) (h : ¬ s.data = []) :
    s.isEmpty = false := by
  cases hb : s.isEmpty
  · rfl
  · exfalso
    apply h
    rw [(String.isEmpty_iff s).mp hb]

theorem rowToItem_ok (r : ChatRow) (M : List Message)
    (hm : r.messages = encodeMessages M) (hmd : MetaColumnOk r.metadata) :
    ∃ item, rowToItem r = .ok item ∧ item.messages = M := by
  cases hr : r.metadata with
  | none =>
    refine ⟨⟨r.id, r.urlId, M, r.description, r.timestamp, none⟩, ?_, rfl⟩
    unfold rowToItem
    rw [hm, parseMessages_enc, hr]
  | some s =>
    unfold MetaColumnOk at hmd
    rw [hr] at hmd
    rcases hmd with hemp | ⟨md, hmd2⟩
    · refine ⟨⟨r.id, r.urlId, M, r.description, r.timestamp, none⟩, ?_, rfl⟩
      unfold rowToItem
      rw [hm, parseMessages_enc, hr, hemp]
      rfl
    · refine ⟨⟨r.id, r.urlId, M, r.description, r.timestamp, some md⟩, ?_, rfl⟩
      unfold rowToItem
      rw [hm, parseMessages_enc, hr, hmd2]
      have hne : (encodeMetadata md).isEmpty = false := by
        apply isEmpty_false_of_data_ne
        simp [encodeMetadata, encodeMetadataChars, litMetaUrlPat]
      simp only [hne, Bool.false_eq_true, if_false, parseMetadata_enc]

/-- C6: after a successful `setMessages(i, M, ...)` on a well-formed table,
`getMessages(i)` returns a record whose `messages` equals `M` exactly (the
serialize-then-deserialize round trip through the `chats` table). -/
theorem claim_C6_getMessages_roundtrip (db : List ChatRow) (id : String)
    (M : List Message) (u d t : Option String) (md : Option ChatMetadata)
    (now : DateTime) (db2 : List ChatRow) (hwf : MetaWF db)
    (h : setMessages db id M u d t md now = .ok db2) :
    ∃ item, getMessages db2 id = .ok (some item) ∧ item.messages = M := by
  have hrow : ∃ row, db2.find? (fun r => r.id == id) = some row ∧
      row.messages = encodeMessages M ∧ MetaColumnOk row.metadata := by
    cases hold : db.find? (fun r => r.id == id) with
    | none =>
      have hins := setMessages_insert_find db id M u d t md now db2 h hold
      rw [hins]
      refine ⟨_, find?_append_singleton_of_none db id _ hold (beq_self_eq_true id),
        rfl, ?_⟩
      cases md with
      | none => trivial
      | some m => exact Or.inr ⟨m, rfl⟩
    | some r0 =>
      have hupd := setMessages_update_find db id M u d t md now db2 r0 h hold
      refine ⟨_, hupd, rfl, ?_⟩
      cases md with
      | some m => exact Or.inr ⟨m, rfl⟩
      | none => exact hwf r0 (List.mem_of_find?_eq_some hold)
  obtain ⟨row, hfind, hmsg, hmd⟩ := hrow
  obtain ⟨item, hitem, hmsgs⟩ := rowToItem_ok row M hmsg hmd
  refine ⟨item, ?_, hmsgs⟩
  have hbyid : getMessagesById db2 id = .ok (some item) := by
    unfold getMessagesById
    rw [hfind]
    show Except.map some (rowToItem row) = .ok (some item)
    rw [hitem]
    rfl
  unfold getMessages
  rw [hbyid]

/-- Closed witness for C6: storing one message in an empty table and reading
it back. -/
theorem claim_C6_getMessages_roundtrip_witness :
    MetaWF [] ∧
    (setMessages [] "1" [⟨"m1", "user", "hi"⟩] none none none none
        ⟨2024, 1, 2, 3, 4, 5, 6⟩ =
      .ok [⟨"1", none, encodeMessages [⟨"m1", "user", "hi"⟩], none,
        "2024-01-02T03:04:05.006Z", none⟩]) ∧
    ∃ item, getMessages [⟨"1", none, encodeMessages [⟨"m1", "user", "hi"⟩], none,
        "2024-01-02T03:04:05.006Z", none⟩] "1" = .ok (some item) ∧
      item.messages = [⟨"m1", "user", "hi"⟩] :=
  ⟨fun r hr => absurd hr (List.not_mem_nil r), by decide,
    claim_C6_getMessages_roundtrip [] "1" [⟨"m1", "user", "hi"⟩] none none none
      none ⟨2024, 1, 2, 3, 4, 5, 6⟩
      [⟨"1", none, encodeMessages [⟨"m1", "user", "hi"⟩], none,
        "2024-01-02T03:04:05.006Z", none⟩]
      (fun r hr => absurd hr (List.not_mem_nil r)) (by decide)⟩

theorem setMessages_desc_set (db : List ChatRow) (id : String) (M : List Message)
    (u : Option String) (dsc : String) (md : Option ChatMetadata) (now : DateTime)
    (db2 : List ChatRow)
    (h : setMessages db id M u (some dsc) none md now = .ok db2) :
    ∃ row, db2.find? (fun r => r.id == id) = some row ∧
      row.description = some dsc := by
  cases hold : db.find? (fun r => r.id == id) with
  | none =>
    have hins := setMessages_insert_find db id M u (some dsc) none md now db2 h hold
    rw [hins]
    exact ⟨_, find?_append_singleton_of_none db id _ hold (beq_self_eq_true id), rfl⟩
  | some r0 =>
    exact ⟨_, setMessages_update_find db id M u (some dsc) none md now db2 r0 h hold,
      rfl⟩

theorem createChat_ok_parts (db : List ChatRow) (dsc : String) (M : List Message)
    (md : Option ChatMetadata) (now : DateTime) (db2 : List ChatRow) (newId : String)
    (h : createChatFromMessages db dsc M md now = .ok (db2, newId)) :
    newId = getNextId db ∧
      setMessages db (getNextId db) M (some (getUrlId db (getNextId db))) (some dsc)
        none md now = .ok db2 := by
  simp only [createChatFromMessages] at h
  cases hset : setMessages db (getNextId db) M (some (getUrlId db (getNextId db)))
      (some dsc) none md now with
  | error e =>
    rw [hset] at h
    simp [Except.map] at h
  | ok db3 =>
    rw [hset] at h
    simp only [Except.map, Except.ok.injEq, Prod.mk.injEq] at h
    exact ⟨h.2.symm, by rw [h.1]⟩

/-- C10: when the source chat's description is null or empty, `forkChat`
creates the new chat with the fixed description `"Forked chat"` and
`duplicateChat` with `"Duplicated chat"`; the `" (fork)"`/`" (copy)"` suffix
forms are used only when the source description is non-empty. -/
theorem claim_C10_fork_dup_default_description :
    (∀ db cid mid now db2 newId item,
      forkChat db cid mid now = .ok (db2, newId) →
      getMessages db cid = .ok (some item) →
      ((item.description = none ∨ item.description = some "" →
        ∃ row, db2.find? (fun r => r.id == newId) = some row ∧
          row.description = some "Forked chat") ∧
       (∀ s, item.description = some s → ¬ s = "" →
        ∃ row, db2.find? (fun r => r.id == newId) = some row ∧
          row.description = some (s ++ " (fork)")))) ∧
    (∀ db cid now db2 newId item,
      duplicateChat db cid now = .ok (db2, newId) →
      getMessages db cid = .ok (some item) →
      ((item.description = none ∨ item.description = some "" →
        ∃ row, db2.find? (fun r => r.id == newId) = some row ∧
          row.description = some "Duplicated chat") ∧
       (∀ s, item.description = some s → ¬ s = "" →
        ∃ row, db2.find? (fun r => r.id == newId) = some row ∧
          row.description = some (s ++ " (copy)")))) := by
  constructor
  · intro db cid mid now db2 newId item hfork hget
    unfold forkChat at hfork
    rw [hget] at hfork
    have hfork2 : (match item.messages.findIdx? (fun m => m.id == mid) with
        | none => (Except.error () : Except Unit (List ChatRow × String))
        | some ix => createChatFromMessages db
            (if truthyStr item.description then item.description.getD "" ++ " (fork)"
             else "Forked chat") (item.messages.take (ix + 1)) none now) =
        .ok (db2, newId) := hfork
    cases hidx : item.messages.findIdx? (fun m => m.id == mid) with
    | none =>
      rw [hidx] at hfork2
      injection hfork2
    | some ix =>
      rw [hidx] at hfork2
      have hcc : createChatFromMessages db
          (if truthyStr item.description then item.description.getD "" ++ " (fork)"
           else "Forked chat") (item.messages.take (ix + 1)) none now =
          .ok (db2, newId) := hfork2
      obtain ⟨hnew, hset⟩ := createChat_ok_parts db _ _ none now db2 newId hcc
      obtain ⟨row, hfind, hdesc⟩ := setMessages_desc_set db _ _ _ _ none now db2 hset
      rw [← hnew] at hfind
      constructor
      · intro hd
        refine ⟨row, hfind, ?_⟩
        rcases hd with hd | hd <;> rw [hd] at hdesc <;> simpa [truthyStr] using hdesc
      · intro s hd hs
        refine ⟨row, hfind, ?_⟩
        rw [hd] at hdesc
        have hie : s.isEmpty = false :=
          isEmpty_false_of_data_ne s (by
            intro hdata
            apply hs
            cases s with
            | mk l => simp only at hdata; rw [hdata])
        simpa [truthyStr, hie] using hdesc
  · intro db cid now db2 newId item hdup hget
    unfold duplicateChat at hdup
    rw [hget] at hdup
    have hcc : createChatFromMessages db
        (if truthyStr item.description then item.description.getD "" ++ " (copy)"
         else "Duplicated chat") item.messages item.metadata now =
        .ok (db2, newId) := hdup
    obtain ⟨hnew, hset⟩ := createChat_ok_parts db _ _ item.metadata now db2 newId hcc
    obtain ⟨row, hfind, hdesc⟩ := setMessages_desc_set db _ _ _ _ item.metadata now db2 hset
    rw [← hnew] at hfind
    constructor
    · intro hd
      refine ⟨row, hfind, ?_⟩
      rcases hd with hd | hd <;> rw [hd] at hdesc <;> simpa [truthyStr] using hdesc
    · intro s hd hs
      refine ⟨row, hfind, ?_⟩
      rw [hd] at hdesc
      have hie : s.isEmpty = false :=
        isEmpty_false_of_data_ne s (by
          intro hdata
          apply hs
          cases s with
          | mk l => simp only at hdata; rw [hdata])
      simpa [truthyStr, hie] using hdesc

/-- Source table of the C10 witness: one chat with a null description. -/
def forkDb : List ChatRow :=
  [⟨"1", some "1", encodeMessages [⟨"m1", "user", "hi"⟩], none,
    "2024-01-01T00:00:00.000Z", none⟩]

/-- The table after the witness fork. -/
def forkDb2 : List ChatRow :=
  forkDb ++ [⟨"2", some "2", encodeMessages [⟨"m1", "user", "hi"⟩],
    some "Forked chat", "2024-01-02T03:04:05.006Z", none⟩]

/-- The source chat of the C10 witness as returned by `getMessages`. -/
def forkItem : ChatHistoryItem :=
  ⟨"1", some "1", [⟨"m1", "user", "hi"⟩], none, "2024-01-01T00:00:00.000Z", none⟩

/-- Closed witness for C10: forking a chat with a null description produces
the fixed description `"Forked chat"`. -/
theorem claim_C10_fork_dup_default_description_witness :
    (forkChat forkDb "1" "m1" ⟨2024, 1, 2, 3, 4, 5, 6⟩ = .ok (forkDb2, "2")) ∧
    (getMessages forkDb "1" = .ok (some forkItem)) ∧
    ∃ row, forkDb2.find? (fun r => r.id == "2") = some row ∧
      row.description = some "Forked chat" :=
  ⟨by decide, by decide,
    (claim_C10_fork_dup_default_description.1 forkDb "1" "m1" ⟨2024, 1, 2, 3, 4, 5, 6⟩
      forkDb2 "2" forkItem (by decide) (by decide)).1 (Or.inl rfl)⟩

theorem find?_append_singleton {α : Type} (l : List α) (p : α → Bool) (x : α)
    (hl : l.find? p = none) (hx : p x = true) : (l ++ [x]).find? p = some x := by
  rw [List.find?_append, hl, Option.none_or, List.find?_cons_of_pos _ hx]

theorem fmGetFileMetadata_found (st : FMState) (id : String) (row : FilesRow)
    (rec : FileMetadataRec)
    (hfind : st.files.find? (fun r => r.id == id) = some row)
    (hrec : filesRowToMetadata row = .ok rec) :
    fmGetFileMetadata st true id = .ok (some rec) := by
  unfold fmGetFileMetadata
  show (match st.files.find? (fun r => r.id == id) with
    | none => Except.ok none
    | some r => Except.map some (filesRowToMetadata r)) = .ok (some rec)
  rw [hfind]
  show Except.map some (filesRowToMetadata row) = .ok (some rec)
  rw [hrec]
  rfl

theorem filesRowToMetadata_none (r : FilesRow) (h : r.metadata = none) :
    filesRowToMetadata r =
      .ok ⟨r.id, r.chatId, r.path, r.contentType, r.size, r.timestamp, none⟩ := by
  unfold filesRowToMetadata
  rw [h]

theorem filesRowToMetadata_enc (r : FilesRow) (l : List (String × String))
    (h : r.metadata = some (encodeRecord l)) :
    filesRowToMetadata r =
      .ok ⟨r.id, r.chatId, r.path, r.contentType, r.size, r.timestamp, some l⟩ := by
  unfold filesRowToMetadata
  rw [h]
  have hne : (encodeRecord l).isEmpty = false := by
    apply isEmpty_false_of_data_ne
    cases l <;> simp [encodeRecord, encodeRecordChars]
  simp only [hne, Bool.false_eq_true, if_false, parseRecord_enc]

/-- C7: `storeFile` immediately followed by `getFileMetadata` of the returned
id yields a record whose `size` is the exact byte length of the input (UTF-8
encoded length for strings, byte length for binary) and whose timestamp
parses as a valid date. -/
theorem claim_C7_storeFile_size_timestamp (pre : String) (st : FMState)
    (id : String) (now : DateTime) (fileData : FileData) (path : String)
    (chatId contentType : Option String) (metadata : Option (List (String × String)))
    (hfresh : st.files.any (fun r => r.id == id) = false)
    (hnow : now.Valid) :
    (fmStoreFile pre st true true id now fileData path chatId contentType
        metadata).2 = .ok id ∧
    ∃ rec, fmGetFileMetadata
        (fmStoreFile pre st true true id now fileData path chatId contentType
          metadata).1 true id = .ok (some rec) ∧
      rec.size = byteSizeOfData fileData ∧
      (∀ s, fileData = .str s → rec.size = s.utf8ByteSize) ∧
      (∀ bytes, fileData = .arrayBuffer bytes → rec.size = bytes.length) ∧
      (∀ bytes, fileData = .uint8Array bytes → rec.size = bytes.length) ∧
      (jsDateParse rec.timestamp).isSome = true := by
  have hnone : st.files.find? (fun r => r.id == id) = none := by
    rw [List.find?_eq_none]
    intro x hx hpx
    have hany : st.files.any (fun r => r.id == id) = true :=
      List.any_eq_true.mpr ⟨x, hx, hpx⟩
    rw [hfresh] at hany
    cases hany
  have hstore : fmStoreFile pre st true true id now fileData path chatId
      contentType metadata =
      (⟨bucketPut st.bucket (getFullKey pre id)
          ⟨fileData, some (fmObjectMetadata metadata path contentType chatId)⟩,
        st.files ++ [⟨id, (if truthyStr chatId then chatId else none), path,
          (if truthyStr contentType then contentType else none),
          byteSizeOfData fileData, toISOString now, metadata.map encodeRecord⟩]⟩,
        .ok id) := by
    unfold fmStoreFile storageStoreFile
    simp [hfresh]
  rw [hstore]
  refine ⟨rfl, ?_⟩
  have hts : (jsDateParse (toISOString now)).isSome = true := by
    rw [jsDateParse_toISOString now hnow]
    rfl
  cases metadata with
  | none =>
    refine ⟨⟨id, (if truthyStr chatId then chatId else none), path,
      (if truthyStr contentType then contentType else none),
      byteSizeOfData fileData, toISOString now, none⟩, ?_, rfl, ?_, ?_, ?_, hts⟩
    · exact fmGetFileMetadata_found _ id _ _
        (find?_append_singleton st.files _ _ hnone (beq_self_eq_true id))
        (filesRowToMetadata_none _ rfl)
    · intro s hs; rw [hs]; rfl
    · intro bytes hb; rw [hb]; rfl
    · intro bytes hb; rw [hb]; rfl
  | some l =>
    refine ⟨⟨id, (if truthyStr chatId then chatId else none), path,
      (if truthyStr contentType then contentType else none),
      byteSizeOfData fileData, toISOString now, some l⟩, ?_, rfl, ?_, ?_, ?_, hts⟩
    · exact fmGetFileMetadata_found _ id _ _
        (find?_append_singleton st.files _ _ hnone (beq_self_eq_true id))
        (filesRowToMetadata_enc _ l rfl)
    · intro s hs; rw [hs]; rfl
    · intro bytes hb; rw [hb]; rfl
    · intro bytes hb; rw [hb]; rfl

/-- Closed witness for C7: storing the two-byte string `"hi"` in an empty
state. -/
theorem claim_C7_storeFile_size_timestamp_witness :
    (([] : List FilesRow).any (fun r => r.id == "f1") = false) ∧
    (⟨2024, 1, 2, 3, 4, 5, 6⟩ : DateTime).Valid ∧
    ((fmStoreFile "" ⟨[], []⟩ true true "f1" ⟨2024, 1, 2, 3, 4, 5, 6⟩
        (.str "hi") "a.txt" none none none).2 = .ok "f1" ∧
      ∃ rec, fmGetFileMetadata
          (fmStoreFile "" ⟨[], []⟩ true true "f1" ⟨2024, 1, 2, 3, 4, 5, 6⟩
            (.str "hi") "a.txt" none none none).1 true "f1" = .ok (some rec) ∧
        rec.size = byteSizeOfData (.str "hi") ∧
        (∀ s, FileData.str "hi" = .str s → rec.size = s.utf8ByteSize) ∧
        (∀ bytes, FileData.str "hi" = .arrayBuffer bytes → rec.size = bytes.length) ∧
        (∀ bytes, FileData.str "hi" = .uint8Array bytes → rec.size = bytes.length) ∧
        (jsDateParse rec.timestamp).isSome = true) :=
  ⟨by decide, by decide,
    claim_C7_storeFile_size_timestamp "" ⟨[], []⟩ "f1" ⟨2024, 1, 2, 3, 4, 5, 6⟩
      (.str "hi") "a.txt" none none none (by decide) (by decide)⟩

theorem nil_isPrefixOf (l : List Char) : ([] : List Char).isPrefixOf l = true := by
  cases l <;> rfl

theorem isPrefixOf_append_self (a c : List Char) : a.isPrefixOf (a ++ c) = true := by
  induction a with
  | nil => exact nil_isPrefixOf _
  | cons x t ih => simp [List.isPrefixOf, ih]

theorem slashState_append (l1 : List Char) :
    ∀ b l2, slashState b (l1 ++ l2) = slashState (slashState b l1) l2 := by
  induction l1 with
  | nil => intro b l2; rfl
  | cons c t ih => intro b l2; simp [slashState, ih]

theorem collapseAux_append (l1 : List Char) :
    ∀ b l2, collapseAux b (l1 ++ l2) =
      collapseAux b l1 ++ collapseAux (slashState b l1) l2 := by
  induction l1 with
  | nil => intro b l2; rfl
  | cons c t ih =>
    intro b l2
    by_cases hc : c = '/'
    · subst hc
      cases b <;> simp [collapseAux, slashState, ih]
    · simp [collapseAux, slashState, hc, ih]

theorem isEmpty_false_of_ne (s : String) (h : ¬ s = "") : s.isEmpty = false := by
  apply isEmpty_false_of_data_ne
  intro hd
  apply h
  cases s with
  | mk l => simp only at hd; rw [hd]

theorem getFullKey_decomp (pre k : String) (h : pre.isEmpty = false) :
    (getFullKey pre k).data = (getFullKey pre "").data ++ collapseAux true k.data := by
  unfold getFullKey
  simp only [h, Bool.false_eq_true, if_false]
  show collapseAux false (pre ++ "/" ++ k).data =
    collapseAux false (pre ++ "/" ++ "").data ++ collapseAux true k.data
  have hdata : (pre ++ "/" ++ k).data = (pre.data ++ ['/']) ++ k.data := by
    rw [String.data_append, String.data_append]
  have hdata0 : (pre ++ "/" ++ "").data = pre.data ++ ['/'] := by
    rw [String.data_append, String.data_append]
    show (pre.data ++ ['/']) ++ [] = pre.data ++ ['/']
    rw [List.append_nil]
  rw [hdata, hdata0, collapseAux_append]
  have hslash : slashState false (pre.data ++ ['/']) = true := by
    rw [slashState_append]
    rfl
  rw [hslash]

theorem mem_bucketPut (b : List (String × R2Object)) (k : String) (o : R2Object) :
    (k, o) ∈ bucketPut b k o := by
  unfold bucketPut
  by_cases h : (b.any fun p => p.1 == k) = true
  · rw [if_pos h]
    obtain ⟨p, hp, hpk⟩ := List.any_eq_true.mp h
    refine List.mem_map.mpr ⟨p, hp, ?_⟩
    simp [hpk]
  · rw [if_neg h]
    exact List.mem_append_right _ (List.mem_singleton.mpr rfl)

theorem bucketPut_length (b : List (String × R2Object)) (k : String) (o : R2Object) :
    (bucketPut b k o).length ≤ b.length + 1 := by
  unfold bucketPut
  by_cases h : (b.any fun p => p.1 == k) = true
  · rw [if_pos h, List.length_map]
    omega
  · rw [if_neg h, List.length_append]
    simp

theorem mem_listFiles (pre : String) (b2 : List (String × R2Object)) (key : String)
    (o : R2Object) (limit : Nat)
    (hmem : (key, o) ∈ b2)
    (hpfx : strStartsWith key (getFullKey pre "") = true)
    (hlim : b2.length ≤ limit) :
    ∃ l, storageListFiles pre b2 true "" limit = .ok l ∧
      replaceFirst key pre "" ∈ l := by
  refine ⟨_, rfl, ?_⟩
  have h1 : (key, o) ∈ b2.filter (fun p => strStartsWith p.1 (getFullKey pre "")) :=
    List.mem_filter.mpr ⟨hmem, hpfx⟩
  have h2 : (b2.filter (fun p => strStartsWith p.1 (getFullKey pre ""))).take limit =
      b2.filter (fun p => strStartsWith p.1 (getFullKey pre "")) :=
    List.take_of_length_le (le_trans (List.length_filter_le _ _) hlim)
  rw [h2]
  exact List.mem_map.mpr ⟨(key, o), h1, rfl⟩

theorem replaceFirst_empty (s : String) : replaceFirst s "" "" = s := by
  cases s with
  | mk l => cases l <;> rfl

/-- C8 counterexample: with instance prefix `"p"`, storing under the logical
key `"k"` and then listing returns `"/k"` — the joining slash survives the
prefix strip — so the logical key `"k"` itself is not among the results. -/
theorem claim_C8_listFiles_counterexample :
    storageListFiles "p" ((storageStoreFile "p" [] true "k" (.str "x") none).1)
        true "" 1000 = .ok ["/k"] ∧
    ("k" : String) ∉ ["/k"] := by decide

/-- C8 (amended): with an empty instance prefix, a stored logical key is
returned as itself by `listFiles`; with any prefix, the listed entry for a
stored key `k` is the composed full key (slash-joined and slash-collapsed)
with the first occurrence of the prefix string removed — not `k` itself: for
prefix `"p"` and key `"k"` that is `"/k"`. -/
theorem claim_C8_listFiles_amended :
    (∀ b (k : String) data md limit, b.length + 1 ≤ limit →
      ∃ l, storageListFiles "" ((storageStoreFile "" b true k data md).1)
          true "" limit = .ok l ∧ k ∈ l) ∧
    (∀ pre b (k : String) data md limit, b.length + 1 ≤ limit →
      ∃ l, storageListFiles pre ((storageStoreFile pre b true k data md).1)
          true "" limit = .ok l ∧ replaceFirst (getFullKey pre k) pre "" ∈ l) ∧
    replaceFirst (getFullKey "p" "k") "p" "" = "/k" := by
  have hmain : ∀ pre b (k : String) data md limit, b.length + 1 ≤ limit →
      ∃ l, storageListFiles pre ((storageStoreFile pre b true k data md).1)
        true "" limit = .ok l ∧ replaceFirst (getFullKey pre k) pre "" ∈ l := by
    intro pre b k data md limit hlim
    have hpfx : strStartsWith (getFullKey pre k) (getFullKey pre "") = true := by
      by_cases hpre : pre = ""
      · subst hpre
        exact nil_isPrefixOf _
      · unfold strStartsWith
        rw [getFullKey_decomp pre k (isEmpty_false_of_ne pre hpre)]
        exact isPrefixOf_append_self _ _
    exact mem_listFiles pre _ (getFullKey pre k) _ limit
      (mem_bucketPut b (getFullKey pre k) ⟨data, md⟩) hpfx
      (le_trans (bucketPut_length b _ _) hlim)
  refine ⟨?_, hmain, by decide⟩
  intro b k data md limit hlim
  obtain ⟨l, hl, hmeml⟩ := hmain "" b k data md limit hlim
  refine ⟨l, hl, ?_⟩
  have hk : getFullKey "" k = k := rfl
  rw [hk] at hmeml
  rwa [replaceFirst_empty] at hmeml

/-- Closed witness for the amended C8: an empty prefix returns the logical
key itself. -/
theorem claim_C8_listFiles_amended_witness :
    (([] : List (String × R2Object)).length + 1 ≤ 1000) ∧
    ∃ l, storageListFiles "" ((storageStoreFile "" [] true "k" (.str "x") none).1)
        true "" 1000 = .ok l ∧ ("k" : String) ∈ l :=
  ⟨by decide, claim_C8_listFiles_amended.1 [] "k" (.str "x") none 1000 (by decide)⟩

end BoltDiy
